import Mathlib

/-!
Verification of the Apple-Health ingestion core (parser, aggregator,
incremental-ingestion controller, batch dispatcher) against its
natural-language specification.

Conventions of the embedding:
* Python `datetime` values are modelled by `PyDateTime`: the wall-clock
  fields carried by the object plus its `utcoffset` in microseconds
  (`none` for a naive datetime).  Equality of Python datetimes (used by
  the `dict` bucket keys of the aggregator) compares naive datetimes
  field-wise and aware datetimes by their UTC instant; a naive and an
  aware datetime are never equal.  This is `pyDtEq` below.
* Python floats are modelled as rationals (`ℚ`); `float("inf")` and
  `float("-inf")`, which the streaming aggregator uses as the initial
  accumulator for min/max, are modelled by `⊤ : WithTop ℚ` and
  `⊥ : WithBot ℚ`.
* Python dicts used as accumulators are modelled as insertion-ordered
  association lists, with key lookups performed via `pyDtEq`-based key
  equality, exactly as Python's `dict` does via `__eq__`/`__hash__`.
-/

/-- Model of a Python `datetime.datetime`: wall-clock fields plus the
UTC offset in microseconds (`none` = naive datetime).  The parser only
ever constructs offsets from the `%z` directive, which has microsecond
resolution in CPython. -/
structure PyDateTime where
  year : Int
  month : Nat
  day : Nat
  hour : Nat
  minute : Nat
  second : Nat
  microsecond : Nat
  utcoffset : Option Int
deriving DecidableEq, Repr

/-- Day number of a proleptic-Gregorian civil date, with day 0 =
1970-01-01 (Hinnant's `days_from_civil`; the same calendar arithmetic
as CPython's `datetime.toordinal`, shifted to the Unix epoch). -/
def daysFromCivil (y : Int) (m : Nat) (d : Nat) : Int :=
  let yy : Int := if m ≤ 2 then y - 1 else y
  let era : Int := Int.fdiv yy 400
  let yoe : Int := yy - era * 400
  let mp : Int := if 2 < m then (m : Int) - 3 else (m : Int) + 9
  let doy : Int := Int.fdiv (153 * mp + 2) 5 + (d : Int) - 1
  let doe : Int := yoe * 365 + Int.fdiv yoe 4 - Int.fdiv yoe 100 + doy
  era * 146097 + doe - 719468

/-- Wall-clock reading of a datetime in microseconds since the epoch,
ignoring the offset. -/
def PyDateTime.wallMicros (dt : PyDateTime) : Int :=
  (daysFromCivil dt.year dt.month dt.day * 86400
    + (dt.hour : Int) * 3600 + (dt.minute : Int) * 60 + (dt.second : Int)) * 1000000
    + (dt.microsecond : Int)

/-- UTC instant (microseconds since the epoch) of an aware datetime
whose `utcoffset` is `off` microseconds. -/
def PyDateTime.instantMicros (dt : PyDateTime) (off : Int) : Int :=
  dt.wallMicros - off

/-- Python `datetime.__eq__`: naive datetimes compare field-wise, aware
datetimes compare by UTC instant, and a naive datetime never equals an
aware one.  Python `dict`s (the aggregator's bucket maps) identify keys
by exactly this relation. -/
def pyDtEq (a b : PyDateTime) : Bool :=
  match a.utcoffset, b.utcoffset with
  | none, none => a == b
  | some oa, some ob => a.instantMicros oa == b.instantMicros ob
  | _, _ => false

/-- `src/aggregator.py`: `dt.replace(minute=0, second=0, microsecond=0)`;
`replace` keeps the `tzinfo` of the datetime untouched. -/
def _truncate_to_hour (dt : PyDateTime) : PyDateTime :=
  { dt with minute := 0, second := 0, microsecond := 0 }

/-- `src/aggregator.py`: `dt.replace(hour=0, minute=0, second=0, microsecond=0)`. -/
def _truncate_to_day (dt : PyDateTime) : PyDateTime :=
  { dt with hour := 0, minute := 0, second := 0, microsecond := 0 }

/-- `src/models.py` `HealthMetricSample`.  Python floats are modelled
as rationals; a non-string `source` value (which Python would store
unchecked) is collapsed to `""`, since no verified property reads it. -/
structure HealthMetricSample where
  metric_name : String
  timestamp : PyDateTime
  value : ℚ
  unit : String
  source : String := ""
deriving DecidableEq, Repr

/-- `src/models.py` `AggregatedMetric`. -/
structure AggregatedMetric where
  metric_name : String
  timestamp : PyDateTime
  unit : String
  count : Nat
  sum_value : ℚ
  avg_value : ℚ
  min_value : ℚ
  max_value : ℚ
deriving DecidableEq, Repr

/-- Bucket key `(metric_name, period_start, unit)`. -/
abbrev SampleKey := String × PyDateTime × String

/-- Equality of bucket keys as a Python tuple key in a `dict`:
component-wise `__eq__`, with `pyDtEq` on the datetime component. -/
def sampleKeyEq (a b : SampleKey) : Bool :=
  a.1 == b.1 && pyDtEq a.2.1 b.2.1 && a.2.2 == b.2.2

/-- Hourly bucket key of a sample (`src/aggregator.py`, line 32-33). -/
def hourKeyOf (s : HealthMetricSample) : SampleKey :=
  (s.metric_name, _truncate_to_hour s.timestamp, s.unit)

/-- Daily bucket key of a sample (`src/aggregator.py`, line 59-60). -/
def dayKeyOf (s : HealthMetricSample) : SampleKey :=
  (s.metric_name, _truncate_to_day s.timestamp, s.unit)

/-- Day key obtained from a bucket key (used by
`aggregate_from_hourly_to_daily`, line 85-86). -/
def dayOfKey (k : SampleKey) : SampleKey :=
  (k.1, _truncate_to_day k.2.1, k.2.2)

/-! ## Insertion-ordered grouping (model of `defaultdict` bucketing)

A Python `dict` keyed by `(metric_name, datetime, unit)` tuples is an
insertion-ordered map whose key identity is `sampleKeyEq`.  We model it
as an association list: a new key is appended at the end, and an
existing entry (the first — and, keys being pairwise inequivalent, the
only — `sampleKeyEq`-matching one) is updated in place.  The key
stored is the one first inserted. -/

/-- Append `v` to the group of `k`, or start a new group at the end. -/
def addToGroups (E : SampleKey → SampleKey → Bool) (k : SampleKey) (v : α) :
    List (SampleKey × List α) → List (SampleKey × List α)
  | [] => [(k, [v])]
  | g :: gs => if E g.1 k then (g.1, g.2 ++ [v]) :: gs else g :: addToGroups E k v gs

/-- `defaultdict(list)` grouping of `items` by `key`, in input order. -/
def groupByE (E : SampleKey → SampleKey → Bool) (key : α → SampleKey)
    (items : List α) : List (SampleKey × List α) :=
  items.foldl (fun gs i => addToGroups E (key i) i gs) []

/-- Multiset of the members of all groups whose key matches `q`. -/
def classMS (E : SampleKey → SampleKey → Bool) (q : SampleKey)
    (gs : List (SampleKey × List α)) : Multiset α :=
  (gs.map (fun g => if E g.1 q then (g.2 : Multiset α) else 0)).sum

/-- Multiset of the members of all groups. -/
def totalMS (gs : List (SampleKey × List α)) : Multiset α :=
  (gs.map (fun g => (g.2 : Multiset α))).sum

/-- Well-formedness of a group list relative to the universe `u` of
items seen so far: every group key is the key of some seen item, every
member is a seen item, its key matches the group key, and the group is
nonempty. -/
def GroupsWF (E : SampleKey → SampleKey → Bool) (key : α → SampleKey)
    (u : List α) (gs : List (SampleKey × List α)) : Prop :=
  ∀ g ∈ gs, (∃ m ∈ u, key m = g.1) ∧ g.2 ≠ [] ∧
    ∀ m ∈ g.2, m ∈ u ∧ E (key m) g.1 = true

/-- The keys of the groups are pairwise inequivalent (each Python dict
key occurs once). -/
def KeysPairwise (E : SampleKey → SampleKey → Bool)
    (gs : List (SampleKey × List α)) : Prop :=
  gs.Pairwise (fun g g' => E g.1 g'.1 = false)

/-- Python `sum(values)` over a list of floats. -/
def listSum (l : List ℚ) : ℚ := l.foldl (· + ·) 0

/-- Python `min(values)` over a nonempty list (`min` raises on an empty
list; every bucket is nonempty, so the `[]` case is unreachable). -/
def listMin : List ℚ → ℚ
  | [] => 0
  | x :: xs => xs.foldl min x

/-- Python `max(values)` over a nonempty list. -/
def listMax : List ℚ → ℚ
  | [] => 0
  | x :: xs => xs.foldl max x

/-- The `AggregatedMetric` built from one bucket (`src/aggregator.py`
lines 38-47 and 65-74): `count=len`, `sum`, `avg=sum/len`, `min`, `max`. -/
def finalizeAgg (k : SampleKey) (vals : List ℚ) : AggregatedMetric :=
  { metric_name := k.1, timestamp := k.2.1, unit := k.2.2,
    count := vals.length, sum_value := listSum vals,
    avg_value := listSum vals / (vals.length : ℚ),
    min_value := listMin vals, max_value := listMax vals }

/-- `aggregate_to_hourly` (`src/aggregator.py` lines 23-47): group the
samples by `(metric_name, hour, unit)` into a `defaultdict` and
finalize each bucket. -/
def aggregate_to_hourly (samples : List HealthMetricSample) : List AggregatedMetric :=
  (groupByE sampleKeyEq hourKeyOf samples).map
    (fun g => finalizeAgg g.1 (g.2.map (·.value)))

/-- `aggregate_to_daily` (`src/aggregator.py` lines 50-74). -/
def aggregate_to_daily (samples : List HealthMetricSample) : List AggregatedMetric :=
  (groupByE sampleKeyEq dayKeyOf samples).map
    (fun g => finalizeAgg g.1 (g.2.map (·.value)))

/-- Day bucket key of an hourly aggregate
(`src/aggregator.py` lines 85-86). -/
def aggDayKey (a : AggregatedMetric) : SampleKey :=
  (a.metric_name, _truncate_to_day a.timestamp, a.unit)

/-- `aggregate_from_hourly_to_daily` (`src/aggregator.py` lines
77-102): group hourly aggregates by `(metric_name, day, unit)` and
combine `count = Σ count`, `sum = Σ sum`,
`avg = sum/count if count > 0 else 0`, `min = min of mins`,
`max = max of maxes`. -/
def combFin (g : SampleKey × List AggregatedMetric) : AggregatedMetric :=
  let total_count := (g.2.map (·.count)).sum
  let total_sum := listSum (g.2.map (·.sum_value))
  { metric_name := g.1.1, timestamp := g.1.2.1, unit := g.1.2.2,
    count := total_count, sum_value := total_sum,
    avg_value := if 0 < total_count then total_sum / (total_count : ℚ) else 0,
    min_value := listMin (g.2.map (·.min_value)),
    max_value := listMax (g.2.map (·.max_value)) }

def aggregate_from_hourly_to_daily (hourly : List AggregatedMetric) : List AggregatedMetric :=
  (groupByE sampleKeyEq aggDayKey hourly).map combFin

/-- One accumulator entry of `StreamingAggregator`
(`{"count", "sum", "min", "max"}`); `min` starts at `float("inf")` (our
`⊤`) and `max` at `float("-inf")` (our `⊥`). -/
structure BucketAcc where
  count : Nat
  sum : ℚ
  min : WithTop ℚ
  max : WithBot ℚ
deriving DecidableEq, Repr

/-- The fresh accumulator inserted for an unseen key
(`src/aggregator.py` lines 122-128). -/
def freshBucket : BucketAcc := { count := 0, sum := 0, min := ⊤, max := ⊥ }

/-- `bucket["count"] += 1; bucket["sum"] += v; bucket["min"] =
min(bucket["min"], v); bucket["max"] = max(bucket["max"], v)`. -/
def updateBucket (b : BucketAcc) (v : ℚ) : BucketAcc :=
  { count := b.count + 1, sum := b.sum + v,
    min := min b.min (v : WithTop ℚ), max := max b.max (v : WithBot ℚ) }

/-- Insert-or-update on the bucket dict, keyed by `sampleKeyEq`. -/
def addToBuckets (k : SampleKey) (v : ℚ) :
    List (SampleKey × BucketAcc) → List (SampleKey × BucketAcc)
  | [] => [(k, updateBucket freshBucket v)]
  | g :: gs => if sampleKeyEq g.1 k then (g.1, updateBucket g.2 v) :: gs
               else g :: addToBuckets k v gs

/-- `StreamingAggregator` state: the two bucket dicts. -/
structure StreamingAggregator where
  hourly_buckets : List (SampleKey × BucketAcc)
  daily_buckets : List (SampleKey × BucketAcc)
deriving DecidableEq, Repr

/-- `StreamingAggregator.__init__`. -/
def StreamingAggregator.init : StreamingAggregator := ⟨[], []⟩

/-- `StreamingAggregator.add_sample` (`src/aggregator.py` lines
116-152): update the hourly bucket and the daily bucket for the
sample's keys. -/
def add_sample (st : StreamingAggregator) (s : HealthMetricSample) : StreamingAggregator :=
  { hourly_buckets := addToBuckets (hourKeyOf s) s.value st.hourly_buckets,
    daily_buckets := addToBuckets (dayKeyOf s) s.value st.daily_buckets }

/-- State after feeding a list of samples to a fresh aggregator. -/
def stateOf (samples : List HealthMetricSample) : StreamingAggregator :=
  samples.foldl add_sample StreamingAggregator.init

/-- Finalization of one streaming bucket (`get_hourly_aggregates` /
`get_daily_aggregates`, lines 154-180): `avg = sum/count`.  A bucket
always holds at least one sample, so its min/max are finite; `untop'
0` / `unbot' 0` only name an unreachable placeholder for `⊤`/`⊥`. -/
def finalizeBucket (k : SampleKey) (b : BucketAcc) : AggregatedMetric :=
  { metric_name := k.1, timestamp := k.2.1, unit := k.2.2,
    count := b.count, sum_value := b.sum,
    avg_value := b.sum / (b.count : ℚ),
    min_value := b.min.untop' 0, max_value := b.max.unbot' 0 }

/-- `StreamingAggregator.get_hourly_aggregates`. -/
def get_hourly_aggregates (st : StreamingAggregator) : List AggregatedMetric :=
  st.hourly_buckets.map (fun g => finalizeBucket g.1 g.2)

/-- `StreamingAggregator.get_daily_aggregates`. -/
def get_daily_aggregates (st : StreamingAggregator) : List AggregatedMetric :=
  st.daily_buckets.map (fun g => finalizeBucket g.1 g.2)

/-- The accumulator reached by folding a list of values into a fresh
bucket. -/
def bucketOfList (vals : List ℚ) : BucketAcc := vals.foldl updateBucket freshBucket

/-- Bucket key carried by a produced aggregate row. -/
def aggKey (a : AggregatedMetric) : SampleKey := (a.metric_name, a.timestamp, a.unit)

def countOver (out : List AggregatedMetric) (p : AggregatedMetric → Bool) : Nat :=
  ((out.filter p).map (·.count)).sum

def sumOver (out : List AggregatedMetric) (p : AggregatedMetric → Bool) : ℚ :=
  ((out.filter p).map (·.sum_value)).sum

def minOver (out : List AggregatedMetric) (p : AggregatedMetric → Bool) : WithTop ℚ :=
  ((out.filter p).map (fun a => (a.min_value : WithTop ℚ))).foldr min ⊤

def maxOver (out : List AggregatedMetric) (p : AggregatedMetric → Bool) : WithBot ℚ :=
  ((out.filter p).map (fun a => (a.max_value : WithBot ℚ))).foldr max ⊥

/-- Number of raw samples in the key class of `p`. -/
def sCountOver (ss : List HealthMetricSample) (p : HealthMetricSample → Bool) : Nat :=
  (ss.filter p).length

def sSumOver (ss : List HealthMetricSample) (p : HealthMetricSample → Bool) : ℚ :=
  ((ss.filter p).map (·.value)).sum

def sMinOver (ss : List HealthMetricSample) (p : HealthMetricSample → Bool) : WithTop ℚ :=
  ((ss.filter p).map (fun s => (s.value : WithTop ℚ))).foldr min ⊤

def sMaxOver (ss : List HealthMetricSample) (p : HealthMetricSample → Bool) : WithBot ℚ :=
  ((ss.filter p).map (fun s => (s.value : WithBot ℚ))).foldr max ⊥

/-- Matching predicate of an aggregate row against a query bucket key. -/
def matchesAt (q : SampleKey) (a : AggregatedMetric) : Bool := sampleKeyEq (aggKey a) q

/-- Matching predicate of an aggregate row's day key against a query key. -/
def dayMatchesAt (q : SampleKey) (a : AggregatedMetric) : Bool := sampleKeyEq (aggDayKey a) q

/-- A sample belongs to the hour class of `q`. -/
def sHourAt (q : SampleKey) (s : HealthMetricSample) : Bool := sampleKeyEq (hourKeyOf s) q

/-- A sample belongs to the day class of `q`. -/
def sDayAt (q : SampleKey) (s : HealthMetricSample) : Bool := sampleKeyEq (dayKeyOf s) q

/-- Two samples with timestamps denoting the same UTC hour through two
different UTC offsets (10:30+01:00 and 09:30+00:00): Python's
instant-based datetime equality merges their hourly buckets but keeps
their daily buckets apart. -/
def cexSamples : List HealthMetricSample :=
  [ { metric_name := "m", timestamp := ⟨2025, 1, 1, 10, 30, 0, 0, some 3600000000⟩,
      value := 1, unit := "u", source := "" },
    { metric_name := "m", timestamp := ⟨2025, 1, 1, 9, 30, 0, 0, some 0⟩,
      value := 2, unit := "u", source := "" } ]

/-- The daily bucket key of the second counterexample sample. -/
def cexQ : SampleKey := ("m", ⟨2025, 1, 1, 0, 0, 0, 0, some 0⟩, "u")

/-- Witness samples: three same-offset samples across two hours of one
day, plus one sample of another day. -/
def wSamples : List HealthMetricSample :=
  [ { metric_name := "m", timestamp := ⟨2025, 1, 1, 10, 5, 0, 0, some 3600000000⟩,
      value := 5, unit := "u", source := "" },
    { metric_name := "m", timestamp := ⟨2025, 1, 1, 10, 50, 0, 0, some 3600000000⟩,
      value := 7, unit := "u", source := "" },
    { metric_name := "m", timestamp := ⟨2025, 1, 1, 11, 10, 0, 0, some 3600000000⟩,
      value := 3, unit := "u", source := "" },
    { metric_name := "m", timestamp := ⟨2025, 1, 2, 0, 0, 1, 0, some 3600000000⟩,
      value := 9, unit := "u", source := "" } ]

/-- Day bucket key of the first witness day. -/
def wQ : SampleKey := ("m", ⟨2025, 1, 1, 0, 0, 0, 0, some 3600000000⟩, "u")

/-- Two samples with identical wall-clock fields and different UTC
offsets. -/
def wallTwinA : HealthMetricSample :=
  { metric_name := "m", timestamp := ⟨2025, 1, 1, 10, 0, 0, 0, some 3600000000⟩,
    value := 1, unit := "u", source := "" }

def wallTwinB : HealthMetricSample :=
  { metric_name := "m", timestamp := ⟨2025, 1, 1, 10, 0, 0, 0, some 0⟩,
    value := 2, unit := "u", source := "" }

/-- The first hourly aggregate produced from the witness samples (as a
projection, so that its membership needs no rational evaluation). -/
def wHourlyAgg : AggregatedMetric :=
  (get_hourly_aggregates (stateOf wSamples)).get ⟨0, by decide⟩

/-- The InfluxDB point built from a raw sample
(`write_metrics_batch`, lines 113-121). -/
structure MetricPoint where
  measurement : String
  metric : String
  source : String
  unit : String
  value : ℚ
  time : PyDateTime
deriving DecidableEq, Repr

def metricPoint (s : HealthMetricSample) : MetricPoint :=
  { measurement := "health_metrics", metric := s.metric_name, source := s.source,
    unit := s.unit, value := s.value, time := s.timestamp }

/-- The InfluxDB point built from an aggregate
(`write_aggregated_batch`, lines 217-228). -/
structure AggPoint where
  measurement : String
  metric : String
  unit : String
  count : Nat
  sum : ℚ
  avg : ℚ
  min : ℚ
  max : ℚ
  time : PyDateTime
deriving DecidableEq, Repr

def aggPoint (measurement : String) (a : AggregatedMetric) : AggPoint :=
  { measurement := measurement, metric := a.metric_name, unit := a.unit,
    count := a.count, sum := a.sum_value, avg := a.avg_value,
    min := a.min_value, max := a.max_value, time := a.timestamp }

/-- Observable state of one batched write: the running item count, the
buffered points, the flushed batches (in flush order) and the argument
of every progress-callback invocation. -/
structure BatchState (α : Type) where
  count : Nat
  points : List α
  flushes : List (List α)
  cbs : List Nat
deriving Repr

/-- One loop iteration of `write_metrics_batch` /
`write_aggregated_batch`: append the point, bump the count, and flush
(invoking the callback with the cumulative count) once 5000 points are
buffered. -/
def batchStep {α : Type} (st : BatchState α) (p : α) : BatchState α :=
  let points := st.points ++ [p]
  let count := st.count + 1
  if 5000 ≤ points.length then
    { count := count, points := [], flushes := st.flushes ++ [points],
      cbs := st.cbs ++ [count] }
  else
    { count := count, points := points, flushes := st.flushes, cbs := st.cbs }

/-- The whole batched write: fold the items, then flush any remainder
(with one more callback). -/
def runBatch {α : Type} (items : List α) : BatchState α :=
  let st := items.foldl batchStep ⟨0, [], [], []⟩
  if st.points.isEmpty then st
  else
    { st with
      points := []
      flushes := st.flushes ++ [st.points]
      cbs := st.cbs ++ [st.count] }

/-- `HealthInfluxClient.write_metrics_batch` (lines 99-138). -/
def write_metrics_batch (samples : List HealthMetricSample) : BatchState MetricPoint :=
  runBatch (samples.map metricPoint)

/-- `HealthInfluxClient.write_aggregated_batch` (lines 210-243). -/
def write_aggregated_batch (aggs : List AggregatedMetric)
    (measurement : String) : BatchState AggPoint :=
  runBatch (aggs.map (aggPoint measurement))

/-- Cumulative numbers of items flushed after each flush, starting
from `n` already-consumed items. -/
def cumLensFrom {α : Type} (n : Nat) : List (List α) → List Nat
  | [] => []
  | b :: bs => (n + b.length) :: cumLensFrom (n + b.length) bs

def cumLens {α : Type} (ls : List (List α)) : List Nat := cumLensFrom 0 ls

/-- The invariant carried through one batched write: the flushed
batches followed by the buffer list the consumed items in order, the
count is the number of consumed items, the buffer stays below
capacity, every flushed batch holds exactly 5000 items, and the
callback arguments are the running flushed totals. -/
def BatchInv {α : Type} (done : List α) (st : BatchState α) : Prop :=
  st.flushes.join ++ st.points = done ∧
  st.count = done.length ∧
  st.points.length < 5000 ∧
  (∀ b ∈ st.flushes, b.length = 5000) ∧
  st.cbs = cumLens st.flushes

def isWsChar (c : Char) : Bool :=
  c = ' ' || c = '\t' || c = '\n' || c = '\r' || c = '\x0b' || c = '\x0c'

/-- Skip any further whitespace (the `+` tail of `\s+`). -/
def skipWsMore : List Char → List Char
  | c :: cs => if isWsChar c then skipWsMore cs else c :: cs
  | [] => []

/-- `\s+`: at least one whitespace character. -/
def skipWs1 : List Char → Option (List Char)
  | c :: cs => if isWsChar c then some (skipWsMore cs) else none
  | [] => none

def expectChar (c : Char) : List Char → Option (List Char)
  | x :: cs => if x = c then some cs else none
  | [] => none

/-- Numeric value of a digit character. -/
def d1 (c : Char) : Nat := c.toNat - 48

def betw (lo c hi : Char) : Bool := lo.toNat ≤ c.toNat && c.toNat ≤ hi.toNat

/-- `%Y`: exactly four digits. -/
def parse4 : List Char → Option (Nat × List Char)
  | a :: b :: c :: d :: cs =>
    if a.isDigit && b.isDigit && c.isDigit && d.isDigit then
      some (d1 a * 1000 + d1 b * 100 + d1 c * 10 + d1 d, cs)
    else none
  | _ => none

/-- `%m`: `1[0-2]|0[1-9]|[1-9]`. -/
def parseMonth : List Char → Option (Nat × List Char)
  | a :: b :: cs =>
    if a = '1' && betw '0' b '2' then some (10 + d1 b, cs)
    else if a = '0' && betw '1' b '9' then some (d1 b, cs)
    else if betw '1' a '9' then some (d1 a, b :: cs)
    else none
  | [a] => if betw '1' a '9' then some (d1 a, []) else none
  | [] => none

/-- `%d`: `3[01]|[12]\d|0[1-9]|[1-9]`. -/
def parseDay : List Char → Option (Nat × List Char)
  | a :: b :: cs =>
    if a = '3' && betw '0' b '1' then some (30 + d1 b, cs)
    else if betw '1' a '2' && b.isDigit then some (d1 a * 10 + d1 b, cs)
    else if a = '0' && betw '1' b '9' then some (d1 b, cs)
    else if betw '1' a '9' then some (d1 a, b :: cs)
    else none
  | [a] => if betw '1' a '9' then some (d1 a, []) else none
  | [] => none

/-- `%H`: `2[0-3]|[0-1]\d|\d`. -/
def parseHour : List Char → Option (Nat × List Char)
  | a :: b :: cs =>
    if a = '2' && betw '0' b '3' then some (20 + d1 b, cs)
    else if betw '0' a '1' && b.isDigit then some (d1 a * 10 + d1 b, cs)
    else if a.isDigit then some (d1 a, b :: cs)
    else none
  | [a] => if a.isDigit then some (d1 a, []) else none
  | [] => none

/-- `%M`: `[0-5]\d|\d`. -/
def parseMinute : List Char → Option (Nat × List Char)
  | a :: b :: cs =>
    if betw '0' a '5' && b.isDigit then some (d1 a * 10 + d1 b, cs)
    else if a.isDigit then some (d1 a, b :: cs)
    else none
  | [a] => if a.isDigit then some (d1 a, []) else none
  | [] => none

/-- `%S`: `6[0-1]|[0-5]\d|\d` (strptime admits leap seconds; the
`datetime` constructor then rejects 60 and 61). -/
def parseSecond : List Char → Option (Nat × List Char)
  | a :: b :: cs =>
    if a = '6' && betw '0' b '1' then some (60 + d1 b, cs)
    else if betw '0' a '5' && b.isDigit then some (d1 a * 10 + d1 b, cs)
    else if a.isDigit then some (d1 a, b :: cs)
    else none
  | [a] => if a.isDigit then some (d1 a, []) else none
  | [] => none

/-- Up to `n` leading digits. -/
def takeDigits : Nat → List Char → (List Char × List Char)
  | 0, cs => ([], cs)
  | _ + 1, [] => ([], [])
  | n + 1, c :: cs =>
    if c.isDigit then
      let p := takeDigits n cs
      (c :: p.1, p.2)
    else ([], c :: cs)

def digitsVal (ds : List Char) : Nat := ds.foldl (fun acc c => acc * 10 + d1 c) 0

/-- The optional `(:?[0-5]\d(\.\d{1,6})?)?` seconds part of `%z`,
in microseconds.  It cannot fail: when the group does not match it
matches empty and the leftover input makes the enclosing full-match
fail. -/
def parseTzSec (cs : List Char) : Nat × List Char :=
  let cs1 := match cs with
    | ':' :: r => r
    | _ => cs
  match cs1 with
  | s1 :: s2 :: rest =>
    if betw '0' s1 '5' && s2.isDigit then
      let secs := d1 s1 * 10 + d1 s2
      match rest with
      | '.' :: ds =>
        let p := takeDigits 6 ds
        if p.1.isEmpty then (secs * 1000000, '.' :: ds)
        else (secs * 1000000 + digitsVal p.1 * 10 ^ (6 - p.1.length), p.2)
      | _ => (secs * 1000000, rest)
    else (0, cs)
  | _ => (0, cs)

/-- `%z`: `[+-]\d\d:?[0-5]\d(:?[0-5]\d(\.\d{1,6})?)?|Z`, returning the
offset in microseconds. -/
def parseTz : List Char → Option (Int × List Char)
  | 'Z' :: cs => some (0, cs)
  | c :: cs =>
    if c = '+' || c = '-' then
      match cs with
      | h1 :: h2 :: cs1 =>
        if h1.isDigit && h2.isDigit then
          let hh := d1 h1 * 10 + d1 h2
          let cs2 := match cs1 with
            | ':' :: r => r
            | _ => cs1
          match cs2 with
          | m1 :: m2 :: cs3 =>
            if betw '0' m1 '5' && m2.isDigit then
              let mm := d1 m1 * 10 + d1 m2
              let p := parseTzSec cs3
              let us : Nat := (hh * 3600 + mm * 60) * 1000000 + p.1
              some (if c = '-' then -(us : Int) else (us : Int), p.2)
            else none
          | _ => none
        else none
      | _ => none
    else none
  | [] => none

/-- Number of days in a month of the proleptic Gregorian calendar. -/
def daysInMonth (y m : Nat) : Nat :=
  if m = 2 then (if y % 4 = 0 && (y % 100 ≠ 0 || y % 400 = 0) then 29 else 28)
  else if m = 4 || m = 6 || m = 9 || m = 11 then 30
  else 31

/-- The `datetime(...)` constructor checks that `except ValueError`
turns into a fallback: `MINYEAR ≤ year`, a real calendar day, and
`second ≤ 59`. -/
def mkValid (y m d h mi s : Nat) : Bool :=
  1 ≤ y && 1 ≤ m && m ≤ 12 && 1 ≤ d && d ≤ daysInMonth y m &&
    h ≤ 23 && mi ≤ 59 && s ≤ 59

/-- The shared `"%Y-%m-%d %H:%M:%S"` prefix of both formats. -/
def parseDateTimeCore (cs : List Char) :
    Option ((Nat × Nat × Nat × Nat × Nat × Nat) × List Char) :=
  match parse4 cs with
  | none => none
  | some (y, cs) =>
    match expectChar '-' cs with
    | none => none
    | some cs =>
      match parseMonth cs with
      | none => none
      | some (mo, cs) =>
        match expectChar '-' cs with
        | none => none
        | some cs =>
          match parseDay cs with
          | none => none
          | some (d, cs) =>
            match skipWs1 cs with
            | none => none
            | some cs =>
              match parseHour cs with
              | none => none
              | some (h, cs) =>
                match expectChar ':' cs with
                | none => none
                | some cs =>
                  match parseMinute cs with
                  | none => none
                  | some (mi, cs) =>
                    match expectChar ':' cs with
                    | none => none
                    | some cs =>
                      match parseSecond cs with
                      | none => none
                      | some (sec, cs) => some ((y, mo, d, h, mi, sec), cs)

/-- `datetime.strptime(s, "%Y-%m-%d %H:%M:%S %z")` (returning `none`
where Python raises `ValueError`); the produced datetime is aware,
carrying the parsed offset.  `timezone(...)` requires the offset to be
strictly within ±24 hours. -/
def strptime_offset_fmt (s : String) : Option PyDateTime :=
  match parseDateTimeCore s.data with
  | none => none
  | some (f, cs) =>
    match skipWs1 cs with
    | none => none
    | some cs =>
      match parseTz cs with
      | none => none
      | some (off, rest) =>
        if rest = [] && mkValid f.1 f.2.1 f.2.2.1 f.2.2.2.1 f.2.2.2.2.1 f.2.2.2.2.2 &&
            off.natAbs < 86400000000 then
          some ⟨f.1, f.2.1, f.2.2.1, f.2.2.2.1, f.2.2.2.2.1, f.2.2.2.2.2, 0, some off⟩
        else none

/-- `datetime.strptime(s, "%Y-%m-%d %H:%M:%S")`: same prefix, full
match, naive result. -/
def strptime_bare_fmt (s : String) : Option PyDateTime :=
  match parseDateTimeCore s.data with
  | none => none
  | some (f, cs) =>
    if cs = [] && mkValid f.1 f.2.1 f.2.2.1 f.2.2.2.1 f.2.2.2.2.1 f.2.2.2.2.2 then
      some ⟨f.1, f.2.1, f.2.2.1, f.2.2.2.1, f.2.2.2.2.1, f.2.2.2.2.2, 0, none⟩
    else none

/-- `parse_timestamp` (`src/parser.py` lines 25-42): falsy input gives
`None`; try the offset format on the whole string; on `ValueError` try
the bare format on the first 19 characters; on `ValueError` again give
`None`. -/
def parse_timestamp (s : String) : Option PyDateTime :=
  if s = "" then none
  else
    match strptime_offset_fmt s with
    | some dt => some dt
    | none => strptime_bare_fmt (s.take 19)

inductive Json where
  | null
  | bool (b : Bool)
  | num (q : ℚ)
  | str (s : String)
  | arr (xs : List Json)
  | obj (kvs : List (String × Json))

/-- Uncaught Python exceptions that the extractor can raise. -/
inductive PyErr where
  | typeErr
  | valueErr
  | attrErr
deriving DecidableEq, Repr

def Json.isNull : Json → Bool
  | .null => true
  | _ => false

/-- Python truthiness of a loaded JSON value. -/
def Json.truthy : Json → Bool
  | .null => false
  | .bool b => b
  | .num q => decide (q ≠ 0)
  | .str s => decide (s ≠ "")
  | .arr xs => !xs.isEmpty
  | .obj kvs => !kvs.isEmpty

/-- First binding of `k` (documents produced by `json.load` have
unique keys). -/
def Json.lookup (kvs : List (String × Json)) (k : String) : Option Json :=
  (kvs.find? (fun kv => kv.1 == k)).map (·.2)

/-- `o.get(k)`: `None` when missing; `AttributeError` when `o` is not
a dict. -/
def pyGet (o : Json) (k : String) : Except PyErr Json :=
  match o with
  | .obj kvs => .ok ((Json.lookup kvs k).getD .null)
  | _ => .error .attrErr

/-- `o.get(k, d)`. -/
def pyGetD (o : Json) (k : String) (d : Json) : Except PyErr Json :=
  match o with
  | .obj kvs => .ok ((Json.lookup kvs k).getD d)
  | _ => .error .attrErr

/-- `for x in j`: lists yield elements, strings their characters,
dicts their keys; other values raise `TypeError`. -/
def pyIter (j : Json) : Except PyErr (List Json) :=
  match j with
  | .arr xs => .ok xs
  | .str s => .ok (s.data.map (fun c => .str (String.mk [c])))
  | .obj kvs => .ok (kvs.map (fun kv => .str kv.1))
  | _ => .error .typeErr

/-- `str.strip()` on both ends (ASCII whitespace). -/
def trimChars (cs : List Char) : List Char :=
  ((cs.dropWhile isWsChar).reverse.dropWhile isWsChar).reverse

/-- `float("...")` on a stripped decimal literal (optional sign,
digits with optional fraction and exponent).  The special spellings
`inf`/`nan` and digit underscores have no rational counterpart and are
treated as unparsable; no verified property depends on them. -/
def parsePyFloat (s : String) : Option ℚ :=
  let cs0 := trimChars s.data
  let sp : Bool × List Char := match cs0 with
    | '+' :: r => (false, r)
    | '-' :: r => (true, r)
    | _ => (false, cs0)
  let p1 : List Char × List Char := sp.2.span (fun c => c.isDigit)
  let p2 : List Char × List Char := match p1.2 with
    | '.' :: r => r.span (fun c => c.isDigit)
    | _ => ([], p1.2)
  if p1.1.isEmpty && p2.1.isEmpty then none
  else
    let mant : ℚ := (digitsVal p1.1 : ℚ) + (digitsVal p2.1 : ℚ) / ((10 : ℚ) ^ p2.1.length)
    let withExp : Option ℚ :=
      match p2.2 with
      | [] => some mant
      | e :: r2 =>
        if e = 'e' || e = 'E' then
          let sp2 := match r2 with
            | '+' :: r3 => (false, r3)
            | '-' :: r3 => (true, r3)
            | _ => (false, r2)
          let p3 := sp2.2.span (fun c => c.isDigit)
          if p3.1.isEmpty || !p3.2.isEmpty then none
          else some (if sp2.1 then mant / (10 : ℚ) ^ digitsVal p3.1
                     else mant * (10 : ℚ) ^ digitsVal p3.1)
        else none
    match withExp with
    | none => none
    | some q => some (if sp.1 then -q else q)

/-- `float(value)`: numbers pass through, booleans become 0/1, strings
are parsed (`ValueError` on failure), everything else raises
`TypeError`. -/
def pyFloat (j : Json) : Except PyErr ℚ :=
  match j with
  | .num q => .ok q
  | .bool b => .ok (if b then 1 else 0)
  | .str s =>
    match parsePyFloat s with
    | some q => .ok q
    | none => .error .valueErr
  | _ => .error .typeErr

/-- `parse_timestamp` applied to a loaded JSON value: falsy values hit
the `if not date_str` guard, strings are parsed, and a truthy
non-string raises `TypeError` inside `strptime`. -/
def parse_timestamp_py (x : Json) : Except PyErr (Option PyDateTime) :=
  match x with
  | .str s => .ok (parse_timestamp s)
  | _ => if x.truthy then .error .typeErr else .ok none

/-- A non-string value stored where the model keeps a `String`
(metric name, unit, source) is collapsed to `""`; Python would store
it unchecked and no verified property reads it. -/
def jsonToStrField : Json → String
  | .str s => s
  | _ => ""

/-- One data point of `parse_metrics` (`src/parser.py` lines 56-79):
timestamp from `date` (or, when falsy, `start` with default `""`),
value from `qty` (or, when `None`, `value`), skip when the timestamp
fails to parse or the value is `None`, `float(...)` the value, source
from `source`/`sources`. -/
def parse_point (metricName unit : String) (sample : Json) :
    Except PyErr (Option HealthMetricSample) := do
  let dateRaw ← pyGet sample "date"
  let dateStr ← if dateRaw.truthy then pure dateRaw else pyGetD sample "start" (.str "")
  let ts? ← parse_timestamp_py dateStr
  match ts? with
  | none => pure none
  | some ts => do
    let q ← pyGet sample "qty"
    let v ← if q.isNull then pyGet sample "value" else pure q
    if v.isNull then
      pure none
    else do
      let x ← pyFloat v
      let srcRaw ← pyGet sample "source"
      let src ← if srcRaw.truthy then pure srcRaw else pyGetD sample "sources" (.str "")
      pure (some { metric_name := metricName, timestamp := ts, value := x,
                   unit := unit, source := jsonToStrField src })

/-- One metric entry (`src/parser.py` lines 52-56): name, units, and
the loop over its data points. -/
def parse_metric_entry (metric : Json) : Except PyErr (List HealthMetricSample) := do
  let nameJ ← pyGetD metric "name" (.str "")
  let unitJ ← pyGetD metric "units" (.str "")
  let dataJ ← pyGetD metric "data" (.arr [])
  let pts ← pyIter dataJ
  pts.foldlM (fun acc p => do
    match ← parse_point (jsonToStrField nameJ) (jsonToStrField unitJ) p with
    | none => pure acc
    | some s => pure (acc ++ [s])) []

/-- `parse_metrics` (`src/parser.py` lines 45-79). -/
def parse_metrics (d : Json) : Except PyErr (List HealthMetricSample) := do
  let dataJ ← pyGetD d "data" (.obj [])
  let metricsJ ← pyGetD dataJ "metrics" (.arr [])
  let ms ← pyIter metricsJ
  ms.foldlM (fun acc m => do
    let l ← parse_metric_entry m
    pure (acc ++ l)) []

/-- Total value of `float(v)` for the loaded values a well-typed point
may carry (numbers and booleans). -/
def pyFloatTotal : Json → ℚ
  | .num q => q
  | .bool b => if b then 1 else 0
  | _ => 0

/-- A timestamp field is absent, `null`, or a string. -/
def strOrNullOpt : Option Json → Bool
  | none => true
  | some .null => true
  | some (.str _) => true
  | _ => false

/-- A value field is absent, `null`, a number, or a boolean. -/
def numOrNullOpt : Option Json → Bool
  | none => true
  | some .null => true
  | some (.num _) => true
  | some (.bool _) => true
  | _ => false

/-- A well-typed data point: an object whose `date`/`start` fields are
strings (or absent/null) and whose `qty`/`value` fields are numeric
(or absent/null). -/
def wfPoint (p : Json) : Bool :=
  match p with
  | .obj kvs =>
    strOrNullOpt (Json.lookup kvs "date") && strOrNullOpt (Json.lookup kvs "start") &&
      numOrNullOpt (Json.lookup kvs "qty") && numOrNullOpt (Json.lookup kvs "value")
  | _ => false

/-- Total evaluation of one well-typed data point: `none` exactly when
the timestamp fails to parse or the value is `null`/absent. -/
def pointEval (metricName unit : String) (p : Json) : Option HealthMetricSample :=
  match p with
  | .obj kvs =>
    let dateRaw := (Json.lookup kvs "date").getD .null
    let dateStr := if dateRaw.truthy then dateRaw
                   else (Json.lookup kvs "start").getD (.str "")
    let ts? : Option PyDateTime :=
      match dateStr with
      | .str s => parse_timestamp s
      | _ => none
    match ts? with
    | none => none
    | some ts =>
      let q := (Json.lookup kvs "qty").getD .null
      let v := if q.isNull then (Json.lookup kvs "value").getD .null else q
      if v.isNull then none
      else
        let srcRaw := (Json.lookup kvs "source").getD .null
        let src := if srcRaw.truthy then srcRaw
                   else (Json.lookup kvs "sources").getD (.str "")
        some { metric_name := metricName, timestamp := ts, value := pyFloatTotal v,
               unit := unit, source := jsonToStrField src }
  | _ => none

/-- The data-point list of a metric entry. -/
def metricData (m : Json) : List Json :=
  match m with
  | .obj kvs =>
    match (Json.lookup kvs "data").getD (.arr []) with
    | .arr pts => pts
    | _ => []
  | _ => []

/-- A well-typed metric entry: an object whose `data` is an array of
well-typed points. -/
def wfMetricEntry (m : Json) : Bool :=
  match m with
  | .obj kvs =>
    (match (Json.lookup kvs "data").getD (.arr []) with
     | .arr pts => pts.all wfPoint
     | _ => false)
  | _ => false

/-- Total evaluation of one metric entry. -/
def metricEval (m : Json) : List HealthMetricSample :=
  match m with
  | .obj kvs =>
    (metricData m).filterMap
      (pointEval (jsonToStrField ((Json.lookup kvs "name").getD (.str "")))
        (jsonToStrField ((Json.lookup kvs "units").getD (.str ""))))
  | _ => []

/-- The metric entries of an export document. -/
def docMetrics (d : Json) : List Json :=
  match d with
  | .obj kvs =>
    match (Json.lookup kvs "data").getD (.obj []) with
    | .obj kvs2 =>
      (match (Json.lookup kvs2 "metrics").getD (.arr []) with
       | .arr ms => ms
       | _ => [])
    | _ => []
  | _ => []

/-- A well-shaped export document. -/
def wfDoc (d : Json) : Bool :=
  match d with
  | .obj kvs =>
    (match (Json.lookup kvs "data").getD (.obj []) with
     | .obj kvs2 =>
       (match (Json.lookup kvs2 "metrics").getD (.arr []) with
        | .arr ms => ms.all wfMetricEntry
        | _ => false)
     | _ => false)
  | _ => false

/-- Total data-point count of a document (what `get_summary` reports
as `total_metric_samples`). -/
def totalPoints (d : Json) : Nat :=
  ((docMetrics d).map (fun m => (metricData m).length)).sum

/-- Number of data points of one metric entry dropped by extraction. -/
def metricDropped (m : Json) : Nat :=
  match m with
  | .obj kvs =>
    ((metricData m).filter
      (fun p => (pointEval (jsonToStrField ((Json.lookup kvs "name").getD (.str "")))
        (jsonToStrField ((Json.lookup kvs "units").getD (.str ""))) p).isNone)).length
  | _ => 0

/-- Number of data points of a document dropped by extraction. -/
def droppedPoints (d : Json) : Nat :=
  ((docMetrics d).map metricDropped).sum

/-- An export document holding one data point whose timestamp parses
but whose `qty` is the string `"abc"`: `float("abc")` raises
`ValueError` inside the extraction loop. -/
def cexDoc : Json :=
  .obj [("data", .obj [("metrics", .arr [
    .obj [("name", .str "m"), ("units", .str "u"), ("data", .arr [
      .obj [("date", .str "2025-01-01 10:00:00 +0000"), ("qty", .str "abc")]])]])])]

/-- A well-typed export document with one yielded point and one
dropped point (its timestamp fields are absent, so parsing yields no
timestamp and the point is skipped, not raised on). -/
def wDocC3 : Json :=
  .obj [("data", .obj [("metrics", .arr [
    .obj [("name", .str "m"), ("units", .str "u"), ("data", .arr [
      .obj [("date", .str "2025-01-01 10:00:00 +0000"), ("qty", .num 5),
            ("source", .str "w")],
      .obj [("qty", .num 7)]])]])])]

/-- Time-series data point within a workout (`src/models.py` lines
130-138).  `parse_workouts` only ever sets `timestamp` and
`heart_rate`; the remaining optional fields stay `None` and are
omitted. -/
structure WorkoutSample where
  timestamp : PyDateTime
  heart_rate : ℚ
deriving Repr

/-- A workout session (`src/models.py` lines 142-169).
`heart_rate_recovery` is stored as the raw loaded JSON value. -/
structure Workout where
  workout_id : String
  name : String
  start_time : PyDateTime
  end_time : PyDateTime
  duration_seconds : ℚ
  location : String
  total_distance : Option ℚ
  distance_unit : String
  total_active_energy : Option ℚ
  energy_unit : String
  total_steps : Option Int
  avg_heart_rate : Option ℚ
  max_heart_rate : Option ℚ
  min_heart_rate : Option ℚ
  intensity : Option ℚ
  intensity_unit : String
  heart_rate_data : List WorkoutSample
  heart_rate_recovery : Json

/-- A value stored where the model keeps an `Optional[float]` summary
field is collapsed to `none` unless numeric; Python would store it
unchecked and no verified property reads it. -/
def jsonToNumOpt : Json → Option ℚ
  | .num q => some q
  | .bool b => some (if b then 1 else 0)
  | _ => none

/-- One step of `sum(s.get("qty", 0) for s in step_count_data)`
(`src/parser.py` line 109): a missing `qty` contributes 0, a stored
non-number (including `null`) makes `sum` raise `TypeError`. -/
def stepFoldStep (a : ℚ) (s : Json) : Except PyErr ℚ := do
  let q ← pyGetD s "qty" (.num 0)
  match q with
  | .num x => pure (a + x)
  | .bool b => pure (a + (if b then (1 : ℚ) else 0))
  | _ => Except.error .typeErr

/-- One iteration of the `heartRateData` loop (`src/parser.py` lines
118-133), accumulating `(hr_values, heart_rate_samples)`: the value
list gains every non-`None` `Avg`, the sample list additionally needs
a parsed `date`; a non-numeric `Avg` would make the later
`sum`/`max`/`min` raise and is modelled as `TypeError` here. -/
def hrFoldStep (acc : List ℚ × List WorkoutSample) (hr : Json) :
    Except PyErr (List ℚ × List WorkoutSample) := do
  let dJ ← pyGetD hr "date" (.str "")
  let ts? ← parse_timestamp_py dJ
  let avgJ ← pyGet hr "Avg"
  let av? ← (match avgJ with
    | .null => pure (none : Option ℚ)
    | .num x => pure (some x)
    | .bool b => pure (some (if b then (1 : ℚ) else 0))
    | _ => Except.error .typeErr)
  let vals := match av? with
    | none => acc.1
    | some v => acc.1 ++ [v]
  let samples := match ts?, av? with
    | some ts, some v => acc.2 ++ [WorkoutSample.mk ts v]
    | _, _ => acc.2
  pure (vals, samples)

/-- One workout record of `parse_workouts` (`src/parser.py` lines
87-165): parse `start` and `end`, skip the record when `start` fails
to parse, otherwise build the `Workout` with
`end_time = end_time or start_time` (a parsed datetime is always
truthy, so the fallback fires exactly when `end` is missing or
unparsable), summary stats from `distance`/`activeEnergyBurned`/
`intensity`, step total from the `stepCount` array (`int(...)` when
the sum is nonzero, `None` otherwise — `sum` of a present-but-`null`
`qty` raises `TypeError`, modelled at the fold step), and heart-rate
stats from `heartRateData` (a sample needs a parsed `date` and a
non-`None` `Avg`; a non-numeric `Avg` would make `sum`/`max`/`min`
raise, modelled as `TypeError` at the fold step). -/
def parse_workout_body (w : Json) (st : PyDateTime) (end? : Option PyDateTime) :
  Except PyErr Workout := do
  let distanceD ← pyGetD w "distance" (.obj [])
  let energyD ← pyGetD w "activeEnergyBurned" (.obj [])
  let intensityD ← pyGetD w "intensity" (.obj [])
  let stepJ ← pyGetD w "stepCount" (.arr [])
  let total_steps ← (if stepJ.truthy then do
      let items ← pyIter stepJ
      let tot ← items.foldlM stepFoldStep (0 : ℚ)
      pure (if tot ≠ 0 then some (Int.div tot.num (tot.den : Int)) else none)
    else pure none)
  let hrJ ← pyGetD w "heartRateData" (.arr [])
  let hrAcc ← (if hrJ.truthy then do
      let items ← pyIter hrJ
      items.foldlM hrFoldStep (([] : List ℚ), ([] : List WorkoutSample))
    else pure ([], []))
  let hrRec ← pyGetD w "heartRateRecovery" (.arr [])
  let idJ ← pyGetD w "id" (.str "")
  let nameJ ← pyGetD w "name" (.str "Unknown")
  let durJ ← pyGetD w "duration" (.num 0)
  let locJ ← pyGetD w "location" (.str "")
  pure {
    workout_id := jsonToStrField idJ
    name := jsonToStrField nameJ
    start_time := st
    end_time := end?.getD st
    duration_seconds := pyFloatTotal durJ
    location := jsonToStrField locJ
    total_distance := (match distanceD with
      | .obj kvs => jsonToNumOpt ((Json.lookup kvs "qty").getD .null)
      | _ => none)
    distance_unit := (match distanceD with
      | .obj kvs => jsonToStrField ((Json.lookup kvs "units").getD (.str "km"))
      | _ => "km")
    total_active_energy := (match energyD with
      | .obj kvs => jsonToNumOpt ((Json.lookup kvs "qty").getD .null)
      | _ => none)
    energy_unit := (match energyD with
      | .obj kvs => jsonToStrField ((Json.lookup kvs "units").getD (.str "kJ"))
      | _ => "kJ")
    total_steps := total_steps
    avg_heart_rate := (if hrAcc.1 ≠ [] then
        some (listSum hrAcc.1 / (hrAcc.1.length : ℚ)) else none)
    max_heart_rate := (if hrAcc.1 ≠ [] then some (listMax hrAcc.1) else none)
    min_heart_rate := (if hrAcc.1 ≠ [] then some (listMin hrAcc.1) else none)
    intensity := (match intensityD with
      | .obj kvs => jsonToNumOpt ((Json.lookup kvs "qty").getD .null)
      | _ => none)
    intensity_unit := (match intensityD with
      | .obj kvs => jsonToStrField ((Json.lookup kvs "units").getD (.str ""))
      | _ => "")
    heart_rate_data := hrAcc.2
    heart_rate_recovery := hrRec }

/-- One workout record of the `parse_workouts` loop (`src/parser.py`
lines 87-92 and 165): parse `start` and `end`, skip the record when
`start` fails to parse, otherwise build the workout via
`parse_workout_body`. -/
def parse_workout (w : Json) : Except PyErr (Option Workout) := do
  let startJ ← pyGetD w "start" (.str "")
  let start? ← parse_timestamp_py startJ
  let endJ ← pyGetD w "end" (.str "")
  let end? ← parse_timestamp_py endJ
  match start? with
  | none => pure none
  | some st => do
    let wk ← parse_workout_body w st end?
    pure (some wk)

/-- `parse_workouts` (`src/parser.py` lines 80-166). -/
def parse_workouts (d : Json) : Except PyErr (List Workout) := do
  let dataJ ← pyGetD d "data" (.obj [])
  let workoutsJ ← pyGetD dataJ "workouts" (.arr [])
  let ws ← pyIter workoutsJ
  ws.foldlM (fun acc wj => do
    match ← parse_workout wj with
    | none => pure acc
    | some wk => pure (acc ++ [wk])) []

/-- Total evaluation of a workout record's `start` timestamp. -/
def workoutStart (w : Json) : Option PyDateTime :=
  match w with
  | .obj kvs =>
    match (Json.lookup kvs "start").getD (.str "") with
    | .str s => parse_timestamp s
    | _ => none
  | _ => none

/-- Total evaluation of a workout record's `end` timestamp. -/
def workoutEnd (w : Json) : Option PyDateTime :=
  match w with
  | .obj kvs =>
    match (Json.lookup kvs "end").getD (.str "") with
    | .str s => parse_timestamp s
    | _ => none
  | _ => none

/-- A `stepCount` item is an object whose `qty` is numeric or absent
(a stored `null` would raise `TypeError` inside `sum`). -/
def wfStepItem : Json → Bool
  | .obj kvs =>
    match Json.lookup kvs "qty" with
    | none => true
    | some (.num _) => true
    | some (.bool _) => true
    | _ => false
  | _ => false

/-- A `heartRateData` item is an object whose `date` is a string or
null/absent and whose `Avg` is numeric or null/absent. -/
def wfHrItem : Json → Bool
  | .obj kvs =>
    strOrNullOpt (Json.lookup kvs "date") && numOrNullOpt (Json.lookup kvs "Avg")
  | _ => false

/-- A `stepCount` field is absent, `null`, or an array of well-typed
items. -/
def wfSteps : Option Json → Bool
  | none => true
  | some .null => true
  | some (.arr xs) => xs.all wfStepItem
  | _ => false

/-- A `heartRateData` field is absent, `null`, or an array of
well-typed items. -/
def wfHrs : Option Json → Bool
  | none => true
  | some .null => true
  | some (.arr xs) => xs.all wfHrItem
  | _ => false

/-- A well-typed workout record: an object with string-or-null
`start`/`end` and well-typed `stepCount`/`heartRateData` arrays. -/
def wfWorkout (w : Json) : Bool :=
  match w with
  | .obj kvs =>
    strOrNullOpt (Json.lookup kvs "start") && strOrNullOpt (Json.lookup kvs "end") &&
    wfSteps (Json.lookup kvs "stepCount") && wfHrs (Json.lookup kvs "heartRateData")
  | _ => false

/-- A workout record whose `start` parses but whose `end` field is
absent. -/
def wWorkoutJ : Json :=
  .obj [("start", .str "2025-01-01 10:00:00 +0000"), ("name", .str "Run")]

/-- The parsed `start` of `wWorkoutJ`. -/
def wWorkoutSt : PyDateTime :=
  { year := 2025, month := 1, day := 1, hour := 10, minute := 0, second := 0,
    microsecond := 0, utcoffset := some 0 }

/-- Python `datetime` strict order: aware datetimes compare by UTC
instant, naive ones field-lexicographically (equivalently by wall-clock
microseconds); comparing naive with aware raises `TypeError`, which
cannot arise between the watermark and samples of one homogeneous
store and is collapsed to `false` here. -/
def pyDtLt (a b : PyDateTime) : Bool :=
  match a.utcoffset, b.utcoffset with
  | some oa, some ob => decide (a.instantMicros oa < b.instantMicros ob)
  | none, none => decide (a.wallMicros < b.wallMicros)
  | _, _ => false

/-- The backing store's contents relevant to an incremental run: raw
samples and the two aggregate measurements
(`health_metrics_hourly` / `health_metrics_daily`). -/
structure Store where
  raw : List HealthMetricSample
  hourly : List AggregatedMetric
  daily : List AggregatedMetric

/-- Modelled from the spec: `GetWatermark` / the `"raw"` entry of
`client.get_last_import_times()` (`src/ingest.py` line 286; the method
body is absent from `src/influx_client.py`) — the instant of the
most-recently persisted raw sample, or `none` when no raw data
exists. -/
def get_last_import_times_raw (st : Store) : Option PyDateTime :=
  st.raw.foldl
    (fun acc s =>
      match acc with
      | none => some s.timestamp
      | some t => if pyDtLt t s.timestamp then some s.timestamp else some t)
    none

/-- Modelled from the spec: `DeleteRange(measurement, start, open)` /
`client.delete_data_after(cutoff, measurement)` (`src/ingest.py` lines
295 and 299; the method body is absent from `src/influx_client.py`) —
removes every aggregate row of the measurement whose period start is
at or after the cutoff, keeping exactly the strictly-earlier rows. -/
def delete_data_after (cutoff : PyDateTime) (rows : List AggregatedMetric) :
    List AggregatedMetric :=
  rows.filter (fun r => pyDtLt r.timestamp cutoff)

/-- Modelled from the spec: the parser's `since` filter
(`HealthDataParser(file_path, since=since)`, `src/ingest.py` line 72;
the parameter is absent from `src/parser.py`) — the sample stream is
restricted to timestamps strictly greater than the watermark. -/
def since_filter (W : PyDateTime) (samples : List HealthMetricSample) :
    List HealthMetricSample :=
  samples.filter (fun s => pyDtLt W s.timestamp)

/-- The incremental-mode controller (`src/ingest.py` lines 281-301 and
`ingest_file`, lines 37-130): read the raw watermark; if absent run a
full import; if present compute
`cutoff_hour = W.replace(minute=0, second=0, microsecond=0)` and
`cutoff_day = W.replace(hour=0, ...)`, delete the overlapping hourly
and daily aggregates first, then ingest the since-filtered stream and
append its raw samples and freshly computed aggregates.  Returns the
new store, the written-sample count, and the skipped-sample count
(`summary total - count`, `src/ingest.py` line 101). -/
def run_incremental (st : Store) (samples : List HealthMetricSample) :
    Store × Nat × Nat :=
  match get_last_import_times_raw st with
  | none =>
    ({ raw := st.raw ++ samples,
       hourly := st.hourly ++ get_hourly_aggregates (stateOf samples),
       daily := st.daily ++ get_daily_aggregates (stateOf samples) },
     samples.length, samples.length - samples.length)
  | some W =>
    let cutoff_hour := { W with minute := 0, second := 0, microsecond := 0 }
    let cutoff_day := { W with hour := 0, minute := 0, second := 0, microsecond := 0 }
    let st1 : Store := { st with
      hourly := delete_data_after cutoff_hour st.hourly
      daily := delete_data_after cutoff_day st.daily }
    let kept := since_filter W samples
    ({ raw := st1.raw ++ kept,
       hourly := st1.hourly ++ get_hourly_aggregates (stateOf kept),
       daily := st1.daily ++ get_daily_aggregates (stateOf kept) },
     kept.length, samples.length - kept.length)

/-- The watermark of the C2 witness store: a naive
2025-01-01 10:30:00. -/
def wWmC2 : PyDateTime :=
  { year := 2025, month := 1, day := 1, hour := 10, minute := 30, second := 0,
    microsecond := 0, utcoffset := none }

/-- C2 witness store: one raw sample at the watermark, one hourly row
before the hour cutoff and one at it, one daily row before the day
cutoff and one at it. -/
def wStoreC2 : Store :=
  { raw := [{ metric_name := "m", timestamp := wWmC2, value := 5, unit := "u", source := "s" }],
    hourly := [
      { metric_name := "m",
        timestamp := { wWmC2 with hour := 9, minute := 0 }, unit := "u",
        count := 1, sum_value := 1, avg_value := 1, min_value := 1, max_value := 1 },
      { metric_name := "m",
        timestamp := { wWmC2 with minute := 0 }, unit := "u",
        count := 1, sum_value := 2, avg_value := 2, min_value := 2, max_value := 2 }],
    daily := [
      { metric_name := "m",
        timestamp := { wWmC2 with year := 2024, month := 12, day := 31, hour := 0, minute := 0 },
        unit := "u",
        count := 1, sum_value := 3, avg_value := 3, min_value := 3, max_value := 3 },
      { metric_name := "m",
        timestamp := { wWmC2 with hour := 0, minute := 0 }, unit := "u",
        count := 1, sum_value := 4, avg_value := 4, min_value := 4, max_value := 4 }] }

/-- C2 witness input stream: one sample at 10:05 (at-or-before the
watermark, skipped) and one at 10:50 (kept) — the spec's Scenario B. -/
def wSamplesC2 : List HealthMetricSample :=
  [{ metric_name := "m", timestamp := { wWmC2 with minute := 5 }, value := 5,
     unit := "u", source := "s" },
   { metric_name := "m", timestamp := { wWmC2 with minute := 50 }, value := 7,
     unit := "u", source := "s" }]

theorem pyDtEq_refl (a : PyDateTime) : pyDtEq a a = true := by
  rcases h : a.utcoffset with _ | o <;> simp [pyDtEq, h]

theorem pyDtEq_symm (a b : PyDateTime) : pyDtEq a b = pyDtEq b a := by
  rcases ha : a.utcoffset with _ | oa <;> rcases hb : b.utcoffset with _ | ob <;>
    simp [pyDtEq, ha, hb, eq_comm]

theorem pyDtEq_trans {a b c : PyDateTime} (h1 : pyDtEq a b = true)
    (h2 : pyDtEq b c = true) : pyDtEq a c = true := by
  rcases ha : a.utcoffset with _ | oa <;> rcases hb : b.utcoffset with _ | ob <;>
    rcases hc : c.utcoffset with _ | oc <;>
    simp_all [pyDtEq, ha, hb, hc]

theorem truncate_day_of_hour (dt : PyDateTime) :
    _truncate_to_day (_truncate_to_hour dt) = _truncate_to_day dt := rfl

theorem utcoffset_truncate_to_hour (dt : PyDateTime) :
    (_truncate_to_hour dt).utcoffset = dt.utcoffset := rfl

theorem utcoffset_truncate_to_day (dt : PyDateTime) :
    (_truncate_to_day dt).utcoffset = dt.utcoffset := rfl

theorem wallMicros_truncate_to_hour (dt : PyDateTime) :
    (_truncate_to_hour dt).wallMicros =
      (daysFromCivil dt.year dt.month dt.day * 86400 + (dt.hour : Int) * 3600) * 1000000 := by
  simp [PyDateTime.wallMicros, _truncate_to_hour]

theorem wallMicros_truncate_to_day (dt : PyDateTime) :
    (_truncate_to_day dt).wallMicros =
      daysFromCivil dt.year dt.month dt.day * 86400 * 1000000 := by
  simp [PyDateTime.wallMicros, _truncate_to_day]

/-- Key coherence: if two datetimes carry the same UTC offset and valid
hour fields, then equality (in Python's sense) of their hour
truncations forces equality of their day truncations.  This is the
step that fails for mixed offsets and makes the rollup-associativity
claim offset-dependent. -/
theorem pyDtEq_day_of_hour {a b : PyDateTime} (hoff : a.utcoffset = b.utcoffset)
    (ha : a.hour < 24) (hb : b.hour < 24)
    (h : pyDtEq (_truncate_to_hour a) (_truncate_to_hour b) = true) :
    pyDtEq (_truncate_to_day a) (_truncate_to_day b) = true := by
  rcases hb' : b.utcoffset with _ | o
  · -- both naive: field-wise equality of the truncations
    rw [hb'] at hoff
    simp only [pyDtEq, _truncate_to_hour, hoff, hb'] at h
    simp only [pyDtEq, _truncate_to_day, hoff, hb']
    simp only [beq_iff_eq, PyDateTime.mk.injEq] at h ⊢
    tauto
  · -- both aware with the same offset: compare instants
    rw [hb'] at hoff
    simp only [pyDtEq, utcoffset_truncate_to_hour, utcoffset_truncate_to_day, hoff, hb',
      PyDateTime.instantMicros, beq_iff_eq] at h ⊢
    rw [wallMicros_truncate_to_hour, wallMicros_truncate_to_hour] at h
    rw [wallMicros_truncate_to_day, wallMicros_truncate_to_day]
    have hD : daysFromCivil a.year a.month a.day = daysFromCivil b.year b.month b.day := by
      omega
    rw [hD]

/-! ## Data model (`src/models.py`) -/

theorem sampleKeyEq_refl (a : SampleKey) : sampleKeyEq a a = true := by
  simp [sampleKeyEq, pyDtEq_refl]

theorem sampleKeyEq_symm (a b : SampleKey) : sampleKeyEq a b = sampleKeyEq b a := by
  have e1 : (a.1 == b.1) = (b.1 == a.1) := by
    by_cases h : a.1 = b.1
    · simp [h]
    · rw [beq_eq_false_iff_ne.mpr h, beq_eq_false_iff_ne.mpr (Ne.symm h)]
  have e2 : (a.2.2 == b.2.2) = (b.2.2 == a.2.2) := by
    by_cases h : a.2.2 = b.2.2
    · simp [h]
    · rw [beq_eq_false_iff_ne.mpr h, beq_eq_false_iff_ne.mpr (Ne.symm h)]
  simp only [sampleKeyEq, pyDtEq_symm a.2.1 b.2.1, e1, e2]

theorem sampleKeyEq_trans {a b c : SampleKey} (h1 : sampleKeyEq a b = true)
    (h2 : sampleKeyEq b c = true) : sampleKeyEq a c = true := by
  simp only [sampleKeyEq, Bool.and_eq_true, beq_iff_eq] at h1 h2 ⊢
  exact ⟨⟨h1.1.1.trans h2.1.1, pyDtEq_trans h1.1.2 h2.1.2⟩, h1.2.trans h2.2⟩

theorem classMS_cons (E : SampleKey → SampleKey → Bool) (q : SampleKey)
    (g : SampleKey × List α) (gs : List (SampleKey × List α)) :
    classMS E q (g :: gs) = (if E g.1 q then (g.2 : Multiset α) else 0) + classMS E q gs := by
  simp [classMS]

theorem totalMS_cons (g : SampleKey × List α) (gs : List (SampleKey × List α)) :
    totalMS (g :: gs) = (g.2 : Multiset α) + totalMS gs := by
  simp [totalMS]

theorem classMS_addToGroups (E : SampleKey → SampleKey → Bool)
    (hsymm : ∀ a b, E a b = E b a)
    (htrans : ∀ a b c, E a b = true → E b c = true → E a c = true)
    (q k : SampleKey) (v : α) (gs : List (SampleKey × List α)) :
    classMS E q (addToGroups E k v gs) =
      classMS E q gs + (if E k q then {v} else 0) := by
  induction gs with
  | nil => by_cases h : E k q <;> simp [classMS, addToGroups, h]
  | cons g gs ih =>
    by_cases hg : E g.1 k = true
    · have hiff : E g.1 q = E k q := by
        by_cases hq : E k q = true
        · rw [hq]; exact htrans _ _ _ hg hq
        · have hq' : E k q = false := by simpa using hq
          rw [hq']
          by_cases hgq : E g.1 q = true
          · exact absurd (htrans k g.1 q (by rw [hsymm]; exact hg) hgq) (by simp [hq'])
          · simpa using hgq
      have happ : ((g.2 ++ [v] : List α) : Multiset α) = (g.2 : Multiset α) + {v} := by
        rw [← Multiset.coe_add, Multiset.coe_singleton]
      simp only [addToGroups, hg, if_true]
      rw [classMS_cons, classMS_cons, hiff]
      by_cases hq : E k q = true
      · simp only [hq, if_true, happ]
        exact add_right_comm _ _ _
      · have hq' : E k q = false := by simpa using hq
        simp [hq']
    · have hg' : E g.1 k = false := by simpa using hg
      simp only [addToGroups, hg', Bool.false_eq_true, if_false]
      rw [classMS_cons, classMS_cons, ih, add_assoc]

theorem classMS_groupByE (E : SampleKey → SampleKey → Bool)
    (hsymm : ∀ a b, E a b = E b a)
    (htrans : ∀ a b c, E a b = true → E b c = true → E a c = true)
    (key : α → SampleKey) (q : SampleKey) (items : List α) :
    classMS E q (groupByE E key items) =
      ((items.filter (fun i => E (key i) q)) : Multiset α) := by
  suffices h : ∀ gs : List (SampleKey × List α),
      classMS E q (items.foldl (fun gs i => addToGroups E (key i) i gs) gs) =
        classMS E q gs + ((items.filter (fun i => E (key i) q)) : Multiset α) by
    simpa [groupByE, classMS] using h []
  induction items with
  | nil => simp
  | cons i items ih =>
    intro gs
    by_cases h : E (key i) q <;>
      simp [List.foldl_cons, ih, classMS_addToGroups E hsymm htrans, h,
        List.filter_cons, add_assoc, add_comm, add_left_comm]

theorem totalMS_addToGroups (E : SampleKey → SampleKey → Bool)
    (k : SampleKey) (v : α) (gs : List (SampleKey × List α)) :
    totalMS (addToGroups E k v gs) = totalMS gs + {v} := by
  induction gs with
  | nil => simp [totalMS, addToGroups]
  | cons g gs ih =>
    by_cases hg : E g.1 k = true
    · simp only [addToGroups, hg, if_true]
      rw [totalMS_cons, totalMS_cons]
      have happ : ((g.2 ++ [v] : List α) : Multiset α) = (g.2 : Multiset α) + {v} := by
        rw [← Multiset.coe_add, Multiset.coe_singleton]
      rw [happ]
      exact add_right_comm _ _ _
    · have hg' : E g.1 k = false := by simpa using hg
      simp only [addToGroups, hg', Bool.false_eq_true, if_false]
      rw [totalMS_cons, totalMS_cons, ih, add_assoc]

theorem totalMS_groupByE (E : SampleKey → SampleKey → Bool)
    (key : α → SampleKey) (items : List α) :
    totalMS (groupByE E key items) = (items : Multiset α) := by
  suffices h : ∀ gs : List (SampleKey × List α),
      totalMS (items.foldl (fun gs i => addToGroups E (key i) i gs) gs) =
        totalMS gs + (items : Multiset α) by
    simpa [groupByE, totalMS] using h []
  induction items with
  | nil => simp
  | cons i items ih =>
    intro gs
    have hc : ((i :: items : List α) : Multiset α) = {i} + (items : Multiset α) := by
      rw [← Multiset.cons_coe, Multiset.singleton_add]
    simp [List.foldl_cons, ih, totalMS_addToGroups, hc, add_assoc, add_comm, add_left_comm]

theorem groupsWF_addToGroups (E : SampleKey → SampleKey → Bool) (key : α → SampleKey)
    (hrefl : ∀ k, E k k = true) (hsymm : ∀ a b, E a b = E b a)
    {u : List α} {gs : List (SampleKey × List α)} (hwf : GroupsWF E key u gs)
    {i : α} (hi : i ∈ u) :
    GroupsWF E key u (addToGroups E (key i) i gs) := by
  induction gs with
  | nil =>
    intro g hg
    simp only [addToGroups, List.mem_singleton] at hg
    subst hg
    exact ⟨⟨i, hi, rfl⟩, by simp, by simpa using ⟨hi, hrefl _⟩⟩
  | cons g0 gs ih =>
    have hwf0 := hwf g0 (by simp)
    have hwfrest : GroupsWF E key u gs := fun g hg => hwf g (by simp [hg])
    by_cases hg0 : E g0.1 (key i) = true
    · intro g hg
      simp only [addToGroups, hg0, if_true, List.mem_cons] at hg
      rcases hg with hg | hg
      · subst hg
        refine ⟨hwf0.1, by simp, ?_⟩
        intro m hm
        simp only [List.mem_append, List.mem_singleton] at hm
        rcases hm with hm | hm
        · exact hwf0.2.2 m hm
        · subst hm
          exact ⟨hi, by rw [hsymm]; exact hg0⟩
      · exact hwfrest g hg
    · intro g hg
      have hg0' : E g0.1 (key i) = false := by simpa using hg0
      simp only [addToGroups, hg0', Bool.false_eq_true, if_false, List.mem_cons] at hg
      rcases hg with hg | hg
      · subst hg; exact hwf0
      · exact ih hwfrest g hg

theorem groupsWF_groupByE (E : SampleKey → SampleKey → Bool) (key : α → SampleKey)
    (hrefl : ∀ k, E k k = true) (hsymm : ∀ a b, E a b = E b a)
    (items : List α) :
    GroupsWF E key items (groupByE E key items) := by
  suffices h : ∀ (u : List α) (gs : List (SampleKey × List α)),
      (∀ i ∈ items, i ∈ u) → GroupsWF E key u gs →
      GroupsWF E key u (items.foldl (fun gs i => addToGroups E (key i) i gs) gs) by
    exact h items [] (fun i hi => hi) (by intro g hg; simp at hg)
  induction items with
  | nil => intro u gs _ hwf; simpa [groupByE] using hwf
  | cons i items ih =>
    intro u gs hsub hwf
    exact ih u _ (fun j hj => hsub j (by simp [hj]))
      (groupsWF_addToGroups E key hrefl hsymm hwf (hsub i (by simp)))

theorem keys_addToGroups_sub (E : SampleKey → SampleKey → Bool) (k : SampleKey) (v : α)
    (gs : List (SampleKey × List α)) :
    ∀ g' ∈ addToGroups E k v gs, g'.1 ∈ gs.map Prod.fst ∨ g'.1 = k := by
  induction gs with
  | nil => intro g' hg'; simp only [addToGroups, List.mem_singleton] at hg'; simp [hg']
  | cons g0 gs ih =>
    intro g' hg'
    by_cases h0 : E g0.1 k = true
    · simp only [addToGroups, h0, if_true, List.mem_cons] at hg'
      rcases hg' with hg' | hg'
      · left; simp [hg']
      · rcases (List.mem_map.mp (List.mem_map_of_mem Prod.fst hg')) with _
        left; simp only [List.map_cons, List.mem_cons]
        right; exact List.mem_map_of_mem Prod.fst hg'
    · have h0' : E g0.1 k = false := by simpa using h0
      simp only [addToGroups, h0', Bool.false_eq_true, if_false, List.mem_cons] at hg'
      rcases hg' with hg' | hg'
      · left; simp [hg']
      · rcases ih g' hg' with h | h
        · left; simp only [List.map_cons, List.mem_cons]; right; exact h
        · right; exact h

theorem keysPairwise_addToGroups (E : SampleKey → SampleKey → Bool) (k : SampleKey) (v : α)
    {gs : List (SampleKey × List α)} (hp : KeysPairwise E gs) :
    KeysPairwise E (addToGroups E k v gs) := by
  induction gs with
  | nil => simp [KeysPairwise, addToGroups]
  | cons g0 gs ih =>
    rcases List.pairwise_cons.mp hp with ⟨hhead, htail⟩
    by_cases h0 : E g0.1 k = true
    · simp only [KeysPairwise, addToGroups, h0, if_true]
      exact List.pairwise_cons.mpr ⟨hhead, htail⟩
    · have h0' : E g0.1 k = false := by simpa using h0
      simp only [KeysPairwise, addToGroups, h0', Bool.false_eq_true, if_false]
      refine List.pairwise_cons.mpr ⟨?_, ih htail⟩
      intro g' hg'
      rcases keys_addToGroups_sub E k v gs g' hg' with h | h
      · rcases List.mem_map.mp h with ⟨g'', hg'', he⟩
        rw [← he]
        exact hhead g'' hg''
      · rw [h]; exact h0'

theorem keysPairwise_groupByE (E : SampleKey → SampleKey → Bool) (key : α → SampleKey)
    (items : List α) : KeysPairwise E (groupByE E key items) := by
  suffices h : ∀ gs : List (SampleKey × List α), KeysPairwise E gs →
      KeysPairwise E (items.foldl (fun gs i => addToGroups E (key i) i gs) gs) by
    exact h [] (by simp [KeysPairwise])
  induction items with
  | nil => intro gs h; simpa [groupByE] using h
  | cons i items ih =>
    intro gs hp
    exact ih _ (keysPairwise_addToGroups E (key i) i hp)

theorem keysPairwise_filter_le_one (E : SampleKey → SampleKey → Bool)
    (hsymm : ∀ a b, E a b = E b a)
    (htrans : ∀ a b c, E a b = true → E b c = true → E a c = true)
    (q : SampleKey) {gs : List (SampleKey × List α)} (hp : KeysPairwise E gs) :
    (gs.filter (fun g => E g.1 q)).length ≤ 1 := by
  induction gs with
  | nil => simp
  | cons g0 gs ih =>
    rcases List.pairwise_cons.mp hp with ⟨hhead, htail⟩
    by_cases h0 : E g0.1 q = true
    · have hrest : gs.filter (fun g => E g.1 q) = [] := by
        apply List.filter_eq_nil_iff.mpr
        intro g hg
        have hne := hhead g hg
        intro hgq
        have : E g0.1 g.1 = true := htrans _ _ _ h0 (by rw [hsymm]; exact hgq)
        rw [hne] at this
        exact Bool.false_ne_true this
      simp [List.filter_cons, h0, hrest]
    · have h0' : E g0.1 q = false := by simpa using h0
      simpa [List.filter_cons, h0'] using ih htail

/-! ## Aggregation (`src/aggregator.py`) -/

theorem addToBuckets_map (k : SampleKey) (s : HealthMetricSample)
    (gs : List (SampleKey × List HealthMetricSample)) :
    addToBuckets k s.value
        (gs.map (fun g => (g.1, bucketOfList (g.2.map (·.value))))) =
      (addToGroups sampleKeyEq k s gs).map
        (fun g => (g.1, bucketOfList (g.2.map (·.value)))) := by
  induction gs with
  | nil => simp [addToBuckets, addToGroups, bucketOfList]
  | cons g0 gs ih =>
    by_cases h0 : sampleKeyEq g0.1 k = true
    · simp only [List.map_cons, addToBuckets, addToGroups, h0, if_true, List.map_cons]
      have : bucketOfList ((g0.2 ++ [s]).map (·.value)) =
          updateBucket (bucketOfList (g0.2.map (·.value))) s.value := by
        simp [bucketOfList, List.map_append, List.foldl_append]
      rw [this]
    · have h0' : sampleKeyEq g0.1 k = false := by simpa using h0
      simp only [List.map_cons, addToBuckets, addToGroups, h0', Bool.false_eq_true,
        if_false, List.map_cons, ih]

theorem foldBuckets_eq_groups (key : HealthMetricSample → SampleKey)
    (samples : List HealthMetricSample) :
    samples.foldl (fun bs s => addToBuckets (key s) s.value bs) [] =
      (groupByE sampleKeyEq key samples).map
        (fun g => (g.1, bucketOfList (g.2.map (·.value)))) := by
  suffices h : ∀ gs : List (SampleKey × List HealthMetricSample),
      samples.foldl (fun bs s => addToBuckets (key s) s.value bs)
          (gs.map (fun g => (g.1, bucketOfList (g.2.map (·.value))))) =
        (samples.foldl (fun gs s => addToGroups sampleKeyEq (key s) s gs) gs).map
          (fun g => (g.1, bucketOfList (g.2.map (·.value)))) by
    simpa [groupByE] using h []
  induction samples with
  | nil => simp
  | cons s samples ih =>
    intro gs
    simp only [List.foldl_cons]
    rw [addToBuckets_map (key s) s gs]
    exact ih _

theorem stateOf_hourly (samples : List HealthMetricSample) :
    (stateOf samples).hourly_buckets =
      samples.foldl (fun bs s => addToBuckets (hourKeyOf s) s.value bs) [] := by
  suffices h : ∀ st : StreamingAggregator,
      (samples.foldl add_sample st).hourly_buckets =
        samples.foldl (fun bs s => addToBuckets (hourKeyOf s) s.value bs)
          st.hourly_buckets by
    simpa [stateOf, StreamingAggregator.init] using h StreamingAggregator.init
  induction samples with
  | nil => intro st; simp
  | cons s samples ih =>
    intro st
    simp only [List.foldl_cons, ih, add_sample]

theorem stateOf_daily (samples : List HealthMetricSample) :
    (stateOf samples).daily_buckets =
      samples.foldl (fun bs s => addToBuckets (dayKeyOf s) s.value bs) [] := by
  suffices h : ∀ st : StreamingAggregator,
      (samples.foldl add_sample st).daily_buckets =
        samples.foldl (fun bs s => addToBuckets (dayKeyOf s) s.value bs)
          st.daily_buckets by
    simpa [stateOf, StreamingAggregator.init] using h StreamingAggregator.init
  induction samples with
  | nil => intro st; simp
  | cons s samples ih =>
    intro st
    simp only [List.foldl_cons, ih, add_sample]

theorem bucketOfList_count (vals : List ℚ) :
    (bucketOfList vals).count = vals.length := by
  suffices h : ∀ b : BucketAcc, (vals.foldl updateBucket b).count = b.count + vals.length by
    simpa [bucketOfList, freshBucket] using h freshBucket
  induction vals with
  | nil => intro b; simp
  | cons v vals ih =>
    intro b
    simp only [List.foldl_cons, ih, updateBucket, List.length_cons]
    omega

theorem bucketOfList_sum (vals : List ℚ) :
    (bucketOfList vals).sum = listSum vals := by
  suffices h : ∀ (b : BucketAcc), (vals.foldl updateBucket b).sum = vals.foldl (· + ·) b.sum by
    simpa [bucketOfList, freshBucket, listSum] using h freshBucket
  induction vals with
  | nil => intro b; simp
  | cons v vals ih =>
    intro b
    simp only [List.foldl_cons, ih, updateBucket]

theorem bucketOfList_min (vals : List ℚ) (hne : vals ≠ []) :
    (bucketOfList vals).min = ((listMin vals : ℚ) : WithTop ℚ) := by
  have hproj : ∀ (b : BucketAcc),
      (vals.foldl updateBucket b).min = vals.foldl (fun (m : WithTop ℚ) (v : ℚ) => min m (v : WithTop ℚ)) b.min := by
    clear hne
    induction vals with
    | nil => intro b; simp
    | cons v vals ih =>
      intro b
      simp only [List.foldl_cons, ih, updateBucket]
  have hcoe : ∀ (l : List ℚ) (x : ℚ),
      l.foldl (fun (m : WithTop ℚ) (v : ℚ) => min m (v : WithTop ℚ)) (x : WithTop ℚ) =
        ((l.foldl min x : ℚ) : WithTop ℚ) := by
    intro l
    induction l with
    | nil => intro x; simp
    | cons v l ih =>
      intro x
      simp only [List.foldl_cons, ← WithTop.coe_min, ih]
  rcases vals with _ | ⟨v, vs⟩
  · exact absurd rfl hne
  · rw [bucketOfList, hproj, List.foldl_cons]
    simp only [freshBucket]
    rw [min_comm, inf_top_eq]
    simpa [listMin] using hcoe vs v

theorem bucketOfList_max (vals : List ℚ) (hne : vals ≠ []) :
    (bucketOfList vals).max = ((listMax vals : ℚ) : WithBot ℚ) := by
  have hproj : ∀ (b : BucketAcc),
      (vals.foldl updateBucket b).max = vals.foldl (fun (m : WithBot ℚ) (v : ℚ) => max m (v : WithBot ℚ)) b.max := by
    clear hne
    induction vals with
    | nil => intro b; simp
    | cons v vals ih =>
      intro b
      simp only [List.foldl_cons, ih, updateBucket]
  have hcoe : ∀ (l : List ℚ) (x : ℚ),
      l.foldl (fun (m : WithBot ℚ) (v : ℚ) => max m (v : WithBot ℚ)) (x : WithBot ℚ) =
        ((l.foldl max x : ℚ) : WithBot ℚ) := by
    intro l
    induction l with
    | nil => intro x; simp
    | cons v l ih =>
      intro x
      simp only [List.foldl_cons, ← WithBot.coe_max, ih]
  rcases vals with _ | ⟨v, vs⟩
  · exact absurd rfl hne
  · rw [bucketOfList, hproj, List.foldl_cons]
    simp only [freshBucket]
    rw [max_comm, sup_bot_eq]
    simpa [listMax] using hcoe vs v

theorem finalizeBucket_ofList (k : SampleKey) (vals : List ℚ) (hne : vals ≠ []) :
    finalizeBucket k (bucketOfList vals) = finalizeAgg k vals := by
  simp only [finalizeBucket, finalizeAgg, bucketOfList_count, bucketOfList_sum,
    bucketOfList_min vals hne, bucketOfList_max vals hne,
    WithTop.untop'_coe, WithBot.unbot'_coe]

/-- The streaming aggregator and the one-shot grouping aggregation
produce identical hourly rollups (same buckets, same order, same
numbers). -/
theorem streaming_hourly_eq (samples : List HealthMetricSample) :
    get_hourly_aggregates (stateOf samples) = aggregate_to_hourly samples := by
  rw [get_hourly_aggregates, stateOf_hourly, foldBuckets_eq_groups,
    aggregate_to_hourly, List.map_map]
  apply List.map_congr_left
  intro g hg
  have hwf := groupsWF_groupByE sampleKeyEq hourKeyOf sampleKeyEq_refl
    sampleKeyEq_symm samples g hg
  have hne : g.2.map (·.value) ≠ [] := by simpa using hwf.2.1
  simp [Function.comp, finalizeBucket_ofList g.1 _ hne]

/-- Same for the daily rollups. -/
theorem streaming_daily_eq (samples : List HealthMetricSample) :
    get_daily_aggregates (stateOf samples) = aggregate_to_daily samples := by
  rw [get_daily_aggregates, stateOf_daily, foldBuckets_eq_groups,
    aggregate_to_daily, List.map_map]
  apply List.map_congr_left
  intro g hg
  have hwf := groupsWF_groupByE sampleKeyEq dayKeyOf sampleKeyEq_refl
    sampleKeyEq_symm samples g hg
  have hne : g.2.map (·.value) ≠ [] := by simpa using hwf.2.1
  simp [Function.comp, finalizeBucket_ofList g.1 _ hne]

/-! ## Per-bucket statistics

`xOver out p` reads off the total count/sum and the least min / greatest
max of the aggregate rows of `out` whose bucket key satisfies `p`.
Since bucket keys are pairwise inequivalent, at most one row matches
the key-equality predicate used below, so these *are* the fields of
"the" matching bucket (or 0/⊤/⊥ when no bucket matches). -/

theorem listSum_eq_sum (l : List ℚ) : listSum l = l.sum := by
  suffices h : ∀ a : ℚ, l.foldl (· + ·) a = a + l.sum by
    simpa [listSum] using h 0
  induction l with
  | nil => intro a; simp
  | cons x l ih =>
    intro a
    simp only [List.foldl_cons, ih, List.sum_cons]
    ring

theorem sampleKeyEq_congr {a b : SampleKey} (h : sampleKeyEq a b = true)
    (q : SampleKey) : sampleKeyEq a q = sampleKeyEq b q := by
  by_cases hq : sampleKeyEq b q = true
  · rw [hq]; exact sampleKeyEq_trans h hq
  · have hq' : sampleKeyEq b q = false := by simpa using hq
    rw [hq']
    by_cases ha : sampleKeyEq a q = true
    · exact absurd (sampleKeyEq_trans (sampleKeyEq_symm a b ▸ h) ha) (by simp [hq'])
    · simpa using ha

theorem dayOfKey_hourKeyOf (s : HealthMetricSample) :
    dayOfKey (hourKeyOf s) = dayKeyOf s := by
  simp [dayOfKey, hourKeyOf, dayKeyOf, truncate_day_of_hour]

/-- Same-offset coherence at key level: hour keys equal (as Python
keys) forces day keys equal. -/
theorem sampleKeyEq_day_of_hour {a b : HealthMetricSample}
    (hoff : a.timestamp.utcoffset = b.timestamp.utcoffset)
    (ha : a.timestamp.hour < 24) (hb : b.timestamp.hour < 24)
    (h : sampleKeyEq (hourKeyOf a) (hourKeyOf b) = true) :
    sampleKeyEq (dayKeyOf a) (dayKeyOf b) = true := by
  simp only [sampleKeyEq, hourKeyOf, dayKeyOf, Bool.and_eq_true, beq_iff_eq] at h ⊢
  exact ⟨⟨h.1.1, pyDtEq_day_of_hour hoff ha hb h.1.2⟩, h.2⟩

theorem filter_map_fin {α : Type} (p : SampleKey → Bool)
    (fin : (SampleKey × List α) → AggregatedMetric)
    (hfin : ∀ g, aggKey (fin g) = g.1) (gs : List (SampleKey × List α)) :
    (gs.map fin).filter (fun a => p (aggKey a)) = (gs.filter (fun g => p g.1)).map fin := by
  induction gs with
  | nil => simp
  | cons g0 gs ih =>
    by_cases h0 : p g0.1 = true
    · simp [List.filter_cons, hfin g0, h0, ih]
    · have h0' : p g0.1 = false := by simpa using h0
      simp [List.filter_cons, hfin g0, h0', ih]

theorem group_sum_ite {α : Type} {M : Type} [AddCommMonoid M]
    (p : SampleKey → Bool) (p' : α → Bool) (f : α → M)
    (gs : List (SampleKey × List α))
    (hmemb : ∀ g ∈ gs, ∀ m ∈ g.2, p' m = p g.1) :
    ((gs.filter (fun g => p g.1)).map (fun g => (g.2.map f).sum)).sum =
      (gs.map (fun g => (g.2.map (fun m => if p' m then f m else 0)).sum)).sum := by
  induction gs with
  | nil => simp
  | cons g0 gs ih =>
    have h0 := hmemb g0 (by simp)
    have hrest : ∀ g ∈ gs, ∀ m ∈ g.2, p' m = p g.1 :=
      fun g hg => hmemb g (by simp [hg])
    by_cases hp : p g0.1 = true
    · have : g0.2.map (fun m => if p' m then f m else 0) = g0.2.map f :=
        List.map_congr_left (fun m hm => by simp [h0 m hm, hp])
      simp [List.filter_cons, hp, ih hrest, this]
    · have hp' : p g0.1 = false := by simpa using hp
      have : g0.2.map (fun m => if p' m then f m else 0) = g0.2.map (fun _ => 0) :=
        List.map_congr_left (fun m hm => by simp [h0 m hm, hp'])
      simp [List.filter_cons, hp', ih hrest, this]

theorem group_sum_total {α : Type} {M : Type} [AddCommMonoid M] (f : α → M)
    (gs : List (SampleKey × List α)) :
    (gs.map (fun g => (g.2.map f).sum)).sum = ((totalMS gs).map f).sum := by
  induction gs with
  | nil => simp [totalMS]
  | cons g0 gs ih =>
    rw [List.map_cons, List.sum_cons, ih, totalMS_cons, Multiset.map_add,
      Multiset.sum_add, Multiset.map_coe, Multiset.sum_coe]

theorem sum_map_ite_filter {α : Type} {M : Type} [AddCommMonoid M]
    (p' : α → Bool) (f : α → M) (items : List α) :
    (items.map (fun i => if p' i then f i else 0)).sum = ((items.filter p').map f).sum := by
  induction items with
  | nil => simp
  | cons i items ih =>
    by_cases hp : p' i = true
    · simp [List.filter_cons, hp, ih]
    · have hp' : p' i = false := by simpa using hp
      simp [List.filter_cons, hp', ih]

theorem fold_min_top {α : Type} (l : List α) :
    (l.map (fun _ => (⊤ : WithTop ℚ))).foldr min ⊤ = ⊤ := by
  induction l with
  | nil => rfl
  | cons x l ih =>
    rw [List.map_cons, List.foldr_cons, ih]
    exact min_self ⊤

theorem fold_max_bot {α : Type} (l : List α) :
    (l.map (fun _ => (⊥ : WithBot ℚ))).foldr max ⊥ = ⊥ := by
  induction l with
  | nil => rfl
  | cons x l ih =>
    rw [List.map_cons, List.foldr_cons, ih]
    exact max_self ⊥

theorem group_min_ite {α : Type} (p : SampleKey → Bool) (p' : α → Bool)
    (f : α → WithTop ℚ) (gs : List (SampleKey × List α))
    (hmemb : ∀ g ∈ gs, ∀ m ∈ g.2, p' m = p g.1) :
    ((gs.filter (fun g => p g.1)).map (fun g => (g.2.map f).foldr min ⊤)).foldr min ⊤ =
      (gs.map (fun g => (g.2.map (fun m => if p' m then f m else ⊤)).foldr min ⊤)).foldr min ⊤ := by
  induction gs with
  | nil => simp
  | cons g0 gs ih =>
    have h0 := hmemb g0 (by simp)
    have hrest : ∀ g ∈ gs, ∀ m ∈ g.2, p' m = p g.1 :=
      fun g hg => hmemb g (by simp [hg])
    by_cases hp : p g0.1 = true
    · have : g0.2.map (fun m => if p' m then f m else ⊤) = g0.2.map f :=
        List.map_congr_left (fun m hm => by simp [h0 m hm, hp])
      simp [List.filter_cons, hp, ih hrest, this]
    · have hp' : p g0.1 = false := by simpa using hp
      have he : g0.2.map (fun m => if p' m then f m else ⊤) =
          g0.2.map (fun _ => (⊤ : WithTop ℚ)) :=
        List.map_congr_left (fun m hm => by simp [h0 m hm, hp'])
      rw [List.filter_cons, hp']
      simp only [Bool.false_eq_true, if_false]
      rw [List.map_cons, List.foldr_cons, he, fold_min_top, ih hrest]
      exact (min_eq_right le_top).symm

theorem group_max_ite {α : Type} (p : SampleKey → Bool) (p' : α → Bool)
    (f : α → WithBot ℚ) (gs : List (SampleKey × List α))
    (hmemb : ∀ g ∈ gs, ∀ m ∈ g.2, p' m = p g.1) :
    ((gs.filter (fun g => p g.1)).map (fun g => (g.2.map f).foldr max ⊥)).foldr max ⊥ =
      (gs.map (fun g => (g.2.map (fun m => if p' m then f m else ⊥)).foldr max ⊥)).foldr max ⊥ := by
  induction gs with
  | nil => simp
  | cons g0 gs ih =>
    have h0 := hmemb g0 (by simp)
    have hrest : ∀ g ∈ gs, ∀ m ∈ g.2, p' m = p g.1 :=
      fun g hg => hmemb g (by simp [hg])
    by_cases hp : p g0.1 = true
    · have : g0.2.map (fun m => if p' m then f m else ⊥) = g0.2.map f :=
        List.map_congr_left (fun m hm => by simp [h0 m hm, hp])
      simp [List.filter_cons, hp, ih hrest, this]
    · have hp' : p g0.1 = false := by simpa using hp
      have he : g0.2.map (fun m => if p' m then f m else ⊥) =
          g0.2.map (fun _ => (⊥ : WithBot ℚ)) :=
        List.map_congr_left (fun m hm => by simp [h0 m hm, hp'])
      rw [List.filter_cons, hp']
      simp only [Bool.false_eq_true, if_false]
      rw [List.map_cons, List.foldr_cons, he, fold_max_bot, ih hrest]
      exact (max_eq_right bot_le).symm

theorem group_min_total {α : Type} (f : α → WithTop ℚ)
    (gs : List (SampleKey × List α)) :
    (gs.map (fun g => (g.2.map f).foldr min ⊤)).foldr min ⊤ = ((totalMS gs).map f).inf := by
  induction gs with
  | nil => simp [totalMS]
  | cons g0 gs ih =>
    rw [List.map_cons, List.foldr_cons, ih, totalMS_cons, Multiset.map_add,
      Multiset.inf_add, Multiset.map_coe, Multiset.inf_coe]

theorem group_max_total {α : Type} (f : α → WithBot ℚ)
    (gs : List (SampleKey × List α)) :
    (gs.map (fun g => (g.2.map f).foldr max ⊥)).foldr max ⊥ = ((totalMS gs).map f).sup := by
  induction gs with
  | nil => simp [totalMS]
  | cons g0 gs ih =>
    rw [List.map_cons, List.foldr_cons, ih, totalMS_cons, Multiset.map_add,
      Multiset.sup_add, Multiset.map_coe, Multiset.sup_coe]

theorem min_map_ite_filter {α : Type} (p' : α → Bool) (f : α → WithTop ℚ)
    (items : List α) :
    (items.map (fun i => if p' i then f i else ⊤)).foldr min ⊤ =
      ((items.filter p').map f).foldr min ⊤ := by
  induction items with
  | nil => simp
  | cons i items ih =>
    by_cases hp : p' i = true
    · simp [List.filter_cons, hp, ih]
    · have hp' : p' i = false := by simpa using hp
      simp [List.filter_cons, hp', ih]

theorem max_map_ite_filter {α : Type} (p' : α → Bool) (f : α → WithBot ℚ)
    (items : List α) :
    (items.map (fun i => if p' i then f i else ⊥)).foldr max ⊥ =
      ((items.filter p').map f).foldr max ⊥ := by
  induction items with
  | nil => simp
  | cons i items ih =>
    by_cases hp : p' i = true
    · simp [List.filter_cons, hp, ih]
    · have hp' : p' i = false := by simpa using hp
      simp [List.filter_cons, hp', ih]

theorem groupByE_sum_class {α : Type} {M : Type} [AddCommMonoid M]
    (key : α → SampleKey) (items : List α) (p : SampleKey → Bool) (p' : α → Bool)
    (f : α → M)
    (hmemb : ∀ g ∈ groupByE sampleKeyEq key items, ∀ m ∈ g.2, p' m = p g.1) :
    (((groupByE sampleKeyEq key items).filter (fun g => p g.1)).map
        (fun g => (g.2.map f).sum)).sum = ((items.filter p').map f).sum := by
  rw [group_sum_ite p p' f _ hmemb, group_sum_total, totalMS_groupByE,
    Multiset.map_coe, Multiset.sum_coe, sum_map_ite_filter]

theorem groupByE_min_class {α : Type} (key : α → SampleKey) (items : List α)
    (p : SampleKey → Bool) (p' : α → Bool) (f : α → WithTop ℚ)
    (hmemb : ∀ g ∈ groupByE sampleKeyEq key items, ∀ m ∈ g.2, p' m = p g.1) :
    (((groupByE sampleKeyEq key items).filter (fun g => p g.1)).map
        (fun g => (g.2.map f).foldr min ⊤)).foldr min ⊤ =
      ((items.filter p').map f).foldr min ⊤ := by
  rw [group_min_ite p p' f _ hmemb, group_min_total, totalMS_groupByE,
    Multiset.map_coe, Multiset.inf_coe, ← min_map_ite_filter p' f items]

theorem groupByE_max_class {α : Type} (key : α → SampleKey) (items : List α)
    (p : SampleKey → Bool) (p' : α → Bool) (f : α → WithBot ℚ)
    (hmemb : ∀ g ∈ groupByE sampleKeyEq key items, ∀ m ∈ g.2, p' m = p g.1) :
    (((groupByE sampleKeyEq key items).filter (fun g => p g.1)).map
        (fun g => (g.2.map f).foldr max ⊥)).foldr max ⊥ =
      ((items.filter p').map f).foldr max ⊥ := by
  rw [group_max_ite p p' f _ hmemb, group_max_total, totalMS_groupByE,
    Multiset.map_coe, Multiset.sup_coe, ← max_map_ite_filter p' f items]

theorem sum_ones {α : Type} (l : List α) : (l.map (fun _ => (1 : ℕ))).sum = l.length := by
  induction l with
  | nil => rfl
  | cons x l ih =>
    rw [List.map_cons, List.sum_cons, ih, List.length_cons, Nat.add_comm]

theorem foldl_min_comm (ys : List ℚ) : ∀ a b : ℚ,
    ys.foldl min (min a b) = min a (ys.foldl min b) := by
  induction ys with
  | nil => intro a b; rfl
  | cons z zs ih =>
    intro a b
    rw [List.foldl_cons, List.foldl_cons, min_assoc, ih]

theorem foldl_max_comm (ys : List ℚ) : ∀ a b : ℚ,
    ys.foldl max (max a b) = max a (ys.foldl max b) := by
  induction ys with
  | nil => intro a b; rfl
  | cons z zs ih =>
    intro a b
    rw [List.foldl_cons, List.foldl_cons, max_assoc, ih]

theorem listMin_fold_coe (l : List ℚ) (hne : l ≠ []) :
    ((listMin l : ℚ) : WithTop ℚ) = (l.map (fun (v : ℚ) => (v : WithTop ℚ))).foldr min ⊤ := by
  induction l with
  | nil => exact absurd rfl hne
  | cons x xs ih =>
    rcases xs with _ | ⟨y, ys⟩
    · simp [listMin, min_eq_left le_top]
    · have hxs : (y :: ys) ≠ [] := by simp
      rw [List.map_cons, List.foldr_cons, ← ih hxs]
      show ((listMin (x :: y :: ys) : ℚ) : WithTop ℚ) = min ↑x ↑(listMin (y :: ys))
      rw [← WithTop.coe_min]
      congr 1
      show (y :: ys).foldl min x = min x (ys.foldl min y)
      rw [List.foldl_cons, ← foldl_min_comm]

theorem listMax_fold_coe (l : List ℚ) (hne : l ≠ []) :
    ((listMax l : ℚ) : WithBot ℚ) = (l.map (fun (v : ℚ) => (v : WithBot ℚ))).foldr max ⊥ := by
  induction l with
  | nil => exact absurd rfl hne
  | cons x xs ih =>
    rcases xs with _ | ⟨y, ys⟩
    · simp [listMax, max_eq_left bot_le]
    · have hxs : (y :: ys) ≠ [] := by simp
      rw [List.map_cons, List.foldr_cons, ← ih hxs]
      show ((listMax (x :: y :: ys) : ℚ) : WithBot ℚ) = max ↑x ↑(listMax (y :: ys))
      rw [← WithBot.coe_max]
      congr 1
      show (y :: ys).foldl max x = max x (ys.foldl max y)
      rw [List.foldl_cons, ← foldl_max_comm]

theorem aggKey_finalizeAgg (k : SampleKey) (vals : List ℚ) :
    aggKey (finalizeAgg k vals) = k := rfl

/-- Member constancy of the direct matching predicate over any
`groupByE` grouping. -/
theorem hmemb_direct {α : Type} (key : α → SampleKey) (items : List α) (q : SampleKey) :
    ∀ g ∈ groupByE sampleKeyEq key items, ∀ m ∈ g.2,
      sampleKeyEq (key m) q = sampleKeyEq g.1 q := by
  intro g hg m hm
  have h := (groupsWF_groupByE sampleKeyEq key sampleKeyEq_refl
    sampleKeyEq_symm items g hg).2.2 m hm
  exact sampleKeyEq_congr h.2 q

/-- Member constancy of the day-level matching predicate over the
hourly grouping, under the same-offset and valid-hour hypotheses. -/
theorem hmemb_day (ss : List HealthMetricSample) (o : Option Int)
    (hoffs : ∀ s ∈ ss, s.timestamp.utcoffset = o)
    (hval : ∀ s ∈ ss, s.timestamp.hour < 24) (q : SampleKey) :
    ∀ g ∈ groupByE sampleKeyEq hourKeyOf ss, ∀ m ∈ g.2,
      sampleKeyEq (dayKeyOf m) q = sampleKeyEq (dayOfKey g.1) q := by
  intro g hg m hm
  obtain ⟨⟨m0, hm0u, hm0k⟩, _, hmem⟩ := groupsWF_groupByE sampleKeyEq hourKeyOf
    sampleKeyEq_refl sampleKeyEq_symm ss g hg
  obtain ⟨hmu, hmE⟩ := hmem m hm
  have h1 : sampleKeyEq (hourKeyOf m) (hourKeyOf m0) = true := by
    rw [hm0k]; exact hmE
  have hday : sampleKeyEq (dayKeyOf m) (dayKeyOf m0) = true :=
    sampleKeyEq_day_of_hour ((hoffs m hmu).trans (hoffs m0 hm0u).symm)
      (hval m hmu) (hval m0 hm0u) h1
  rw [← hm0k, dayOfKey_hourKeyOf]
  exact sampleKeyEq_congr hday q

theorem aggOut_count (key : HealthMetricSample → SampleKey) (ss : List HealthMetricSample)
    (p : SampleKey → Bool) (p' : HealthMetricSample → Bool)
    (hmemb : ∀ g ∈ groupByE sampleKeyEq key ss, ∀ m ∈ g.2, p' m = p g.1) :
    countOver ((groupByE sampleKeyEq key ss).map
        (fun g => finalizeAgg g.1 (g.2.map (·.value)))) (fun a => p (aggKey a)) =
      (ss.filter p').length := by
  rw [countOver, filter_map_fin p
    (fun g => finalizeAgg g.1 (g.2.map (fun s : HealthMetricSample => s.value)))
    (fun g => aggKey_finalizeAgg g.1 _), List.map_map]
  have he : ((groupByE sampleKeyEq key ss).filter (fun g => p g.1)).map
      ((·.count) ∘ (fun g => finalizeAgg g.1 (g.2.map (·.value)))) =
      ((groupByE sampleKeyEq key ss).filter (fun g => p g.1)).map
        (fun g => (g.2.map (fun _ => (1 : ℕ))).sum) := by
    apply List.map_congr_left
    intro g hg
    simp [Function.comp, finalizeAgg, sum_ones]
  rw [he, groupByE_sum_class key ss p p' _ hmemb, sum_ones]

theorem aggOut_sum (key : HealthMetricSample → SampleKey) (ss : List HealthMetricSample)
    (p : SampleKey → Bool) (p' : HealthMetricSample → Bool)
    (hmemb : ∀ g ∈ groupByE sampleKeyEq key ss, ∀ m ∈ g.2, p' m = p g.1) :
    sumOver ((groupByE sampleKeyEq key ss).map
        (fun g => finalizeAgg g.1 (g.2.map (·.value)))) (fun a => p (aggKey a)) =
      ((ss.filter p').map (·.value)).sum := by
  rw [sumOver, filter_map_fin p
    (fun g => finalizeAgg g.1 (g.2.map (fun s : HealthMetricSample => s.value)))
    (fun g => aggKey_finalizeAgg g.1 _), List.map_map]
  have he : ((groupByE sampleKeyEq key ss).filter (fun g => p g.1)).map
      ((·.sum_value) ∘ (fun g => finalizeAgg g.1 (g.2.map (·.value)))) =
      ((groupByE sampleKeyEq key ss).filter (fun g => p g.1)).map
        (fun g => (g.2.map (·.value)).sum) := by
    apply List.map_congr_left
    intro g hg
    simp [Function.comp, finalizeAgg, listSum_eq_sum]
  rw [he, groupByE_sum_class key ss p p' _ hmemb]

theorem aggOut_min (key : HealthMetricSample → SampleKey) (ss : List HealthMetricSample)
    (p : SampleKey → Bool) (p' : HealthMetricSample → Bool)
    (hmemb : ∀ g ∈ groupByE sampleKeyEq key ss, ∀ m ∈ g.2, p' m = p g.1) :
    minOver ((groupByE sampleKeyEq key ss).map
        (fun g => finalizeAgg g.1 (g.2.map (·.value)))) (fun a => p (aggKey a)) =
      ((ss.filter p').map (fun s => (s.value : WithTop ℚ))).foldr min ⊤ := by
  rw [minOver, filter_map_fin p
    (fun g => finalizeAgg g.1 (g.2.map (fun s : HealthMetricSample => s.value)))
    (fun g => aggKey_finalizeAgg g.1 _), List.map_map]
  have he : ((groupByE sampleKeyEq key ss).filter (fun g => p g.1)).map
      ((fun a => (a.min_value : WithTop ℚ)) ∘ (fun g => finalizeAgg g.1 (g.2.map (·.value)))) =
      ((groupByE sampleKeyEq key ss).filter (fun g => p g.1)).map
        (fun g => (g.2.map (fun m => (m.value : WithTop ℚ))).foldr min ⊤) := by
    apply List.map_congr_left
    intro g hg
    have hgm := List.mem_of_mem_filter hg
    have hne : g.2.map (·.value) ≠ [] := by
      simpa using (groupsWF_groupByE sampleKeyEq key sampleKeyEq_refl
        sampleKeyEq_symm ss g hgm).2.1
    simp only [Function.comp, finalizeAgg]
    rw [listMin_fold_coe _ hne, List.map_map]
    rfl
  rw [he, groupByE_min_class key ss p p' _ hmemb]

theorem aggOut_max (key : HealthMetricSample → SampleKey) (ss : List HealthMetricSample)
    (p : SampleKey → Bool) (p' : HealthMetricSample → Bool)
    (hmemb : ∀ g ∈ groupByE sampleKeyEq key ss, ∀ m ∈ g.2, p' m = p g.1) :
    maxOver ((groupByE sampleKeyEq key ss).map
        (fun g => finalizeAgg g.1 (g.2.map (·.value)))) (fun a => p (aggKey a)) =
      ((ss.filter p').map (fun s => (s.value : WithBot ℚ))).foldr max ⊥ := by
  rw [maxOver, filter_map_fin p
    (fun g => finalizeAgg g.1 (g.2.map (fun s : HealthMetricSample => s.value)))
    (fun g => aggKey_finalizeAgg g.1 _), List.map_map]
  have he : ((groupByE sampleKeyEq key ss).filter (fun g => p g.1)).map
      ((fun a => (a.max_value : WithBot ℚ)) ∘ (fun g => finalizeAgg g.1 (g.2.map (·.value)))) =
      ((groupByE sampleKeyEq key ss).filter (fun g => p g.1)).map
        (fun g => (g.2.map (fun m => (m.value : WithBot ℚ))).foldr max ⊥) := by
    apply List.map_congr_left
    intro g hg
    have hgm := List.mem_of_mem_filter hg
    have hne : g.2.map (·.value) ≠ [] := by
      simpa using (groupsWF_groupByE sampleKeyEq key sampleKeyEq_refl
        sampleKeyEq_symm ss g hgm).2.1
    simp only [Function.comp, finalizeAgg]
    rw [listMax_fold_coe _ hne, List.map_map]
    rfl
  rw [he, groupByE_max_class key ss p p' _ hmemb]

theorem aggKey_combFin (g : SampleKey × List AggregatedMetric) :
    aggKey (combFin g) = g.1 := rfl

theorem combOut_count (hs : List AggregatedMetric)
    (p : SampleKey → Bool) (p' : AggregatedMetric → Bool)
    (hmemb : ∀ g ∈ groupByE sampleKeyEq aggDayKey hs, ∀ m ∈ g.2, p' m = p g.1) :
    countOver (aggregate_from_hourly_to_daily hs) (fun a => p (aggKey a)) =
      ((hs.filter p').map (·.count)).sum := by
  rw [countOver, aggregate_from_hourly_to_daily,
    filter_map_fin p combFin aggKey_combFin, List.map_map]
  have he : ((groupByE sampleKeyEq aggDayKey hs).filter (fun g => p g.1)).map
      ((·.count) ∘ combFin) =
      ((groupByE sampleKeyEq aggDayKey hs).filter (fun g => p g.1)).map
        (fun g => (g.2.map (·.count)).sum) := by
    apply List.map_congr_left
    intro g hg
    simp [Function.comp, combFin]
  rw [he, groupByE_sum_class aggDayKey hs p p' _ hmemb]

theorem combOut_sum (hs : List AggregatedMetric)
    (p : SampleKey → Bool) (p' : AggregatedMetric → Bool)
    (hmemb : ∀ g ∈ groupByE sampleKeyEq aggDayKey hs, ∀ m ∈ g.2, p' m = p g.1) :
    sumOver (aggregate_from_hourly_to_daily hs) (fun a => p (aggKey a)) =
      ((hs.filter p').map (·.sum_value)).sum := by
  rw [sumOver, aggregate_from_hourly_to_daily,
    filter_map_fin p combFin aggKey_combFin, List.map_map]
  have he : ((groupByE sampleKeyEq aggDayKey hs).filter (fun g => p g.1)).map
      ((·.sum_value) ∘ combFin) =
      ((groupByE sampleKeyEq aggDayKey hs).filter (fun g => p g.1)).map
        (fun g => (g.2.map (·.sum_value)).sum) := by
    apply List.map_congr_left
    intro g hg
    simp [Function.comp, combFin, listSum_eq_sum]
  rw [he, groupByE_sum_class aggDayKey hs p p' _ hmemb]

theorem combOut_min (hs : List AggregatedMetric)
    (p : SampleKey → Bool) (p' : AggregatedMetric → Bool)
    (hmemb : ∀ g ∈ groupByE sampleKeyEq aggDayKey hs, ∀ m ∈ g.2, p' m = p g.1) :
    minOver (aggregate_from_hourly_to_daily hs) (fun a => p (aggKey a)) =
      ((hs.filter p').map (fun a => (a.min_value : WithTop ℚ))).foldr min ⊤ := by
  rw [minOver, aggregate_from_hourly_to_daily,
    filter_map_fin p combFin aggKey_combFin, List.map_map]
  have he : ((groupByE sampleKeyEq aggDayKey hs).filter (fun g => p g.1)).map
      ((fun a => (a.min_value : WithTop ℚ)) ∘ combFin) =
      ((groupByE sampleKeyEq aggDayKey hs).filter (fun g => p g.1)).map
        (fun g => (g.2.map (fun m => (m.min_value : WithTop ℚ))).foldr min ⊤) := by
    apply List.map_congr_left
    intro g hg
    have hgm := List.mem_of_mem_filter hg
    have hne : g.2.map (fun a : AggregatedMetric => a.min_value) ≠ [] := by
      simpa using (groupsWF_groupByE sampleKeyEq aggDayKey sampleKeyEq_refl
        sampleKeyEq_symm hs g hgm).2.1
    simp only [Function.comp, combFin]
    rw [listMin_fold_coe _ hne, List.map_map]
    rfl
  rw [he, groupByE_min_class aggDayKey hs p p' _ hmemb]

theorem combOut_max (hs : List AggregatedMetric)
    (p : SampleKey → Bool) (p' : AggregatedMetric → Bool)
    (hmemb : ∀ g ∈ groupByE sampleKeyEq aggDayKey hs, ∀ m ∈ g.2, p' m = p g.1) :
    maxOver (aggregate_from_hourly_to_daily hs) (fun a => p (aggKey a)) =
      ((hs.filter p').map (fun a => (a.max_value : WithBot ℚ))).foldr max ⊥ := by
  rw [maxOver, aggregate_from_hourly_to_daily,
    filter_map_fin p combFin aggKey_combFin, List.map_map]
  have he : ((groupByE sampleKeyEq aggDayKey hs).filter (fun g => p g.1)).map
      ((fun a => (a.max_value : WithBot ℚ)) ∘ combFin) =
      ((groupByE sampleKeyEq aggDayKey hs).filter (fun g => p g.1)).map
        (fun g => (g.2.map (fun m => (m.max_value : WithBot ℚ))).foldr max ⊥) := by
    apply List.map_congr_left
    intro g hg
    have hgm := List.mem_of_mem_filter hg
    have hne : g.2.map (fun a : AggregatedMetric => a.max_value) ≠ [] := by
      simpa using (groupsWF_groupByE sampleKeyEq aggDayKey sampleKeyEq_refl
        sampleKeyEq_symm hs g hgm).2.1
    simp only [Function.comp, combFin]
    rw [listMax_fold_coe _ hne, List.map_map]
    rfl
  rw [he, groupByE_max_class aggDayKey hs p p' _ hmemb]

theorem direct_daily_count (ss : List HealthMetricSample) (q : SampleKey) :
    countOver (aggregate_to_daily ss) (matchesAt q) = (ss.filter (sDayAt q)).length :=
  aggOut_count dayKeyOf ss (fun k => sampleKeyEq k q) (sDayAt q) (hmemb_direct dayKeyOf ss q)

theorem direct_daily_sum (ss : List HealthMetricSample) (q : SampleKey) :
    sumOver (aggregate_to_daily ss) (matchesAt q) = ((ss.filter (sDayAt q)).map (·.value)).sum :=
  aggOut_sum dayKeyOf ss (fun k => sampleKeyEq k q) (sDayAt q) (hmemb_direct dayKeyOf ss q)

theorem direct_daily_min (ss : List HealthMetricSample) (q : SampleKey) :
    minOver (aggregate_to_daily ss) (matchesAt q) =
      ((ss.filter (sDayAt q)).map (fun s => (s.value : WithTop ℚ))).foldr min ⊤ :=
  aggOut_min dayKeyOf ss (fun k => sampleKeyEq k q) (sDayAt q) (hmemb_direct dayKeyOf ss q)

theorem direct_daily_max (ss : List HealthMetricSample) (q : SampleKey) :
    maxOver (aggregate_to_daily ss) (matchesAt q) =
      ((ss.filter (sDayAt q)).map (fun s => (s.value : WithBot ℚ))).foldr max ⊥ :=
  aggOut_max dayKeyOf ss (fun k => sampleKeyEq k q) (sDayAt q) (hmemb_direct dayKeyOf ss q)

theorem hourly_day_count (ss : List HealthMetricSample) (o : Option Int)
    (hoffs : ∀ s ∈ ss, s.timestamp.utcoffset = o)
    (hval : ∀ s ∈ ss, s.timestamp.hour < 24) (q : SampleKey) :
    countOver (aggregate_to_hourly ss) (dayMatchesAt q) = (ss.filter (sDayAt q)).length :=
  aggOut_count hourKeyOf ss (fun k => sampleKeyEq (dayOfKey k) q) (sDayAt q)
    (hmemb_day ss o hoffs hval q)

theorem hourly_day_sum (ss : List HealthMetricSample) (o : Option Int)
    (hoffs : ∀ s ∈ ss, s.timestamp.utcoffset = o)
    (hval : ∀ s ∈ ss, s.timestamp.hour < 24) (q : SampleKey) :
    sumOver (aggregate_to_hourly ss) (dayMatchesAt q) =
      ((ss.filter (sDayAt q)).map (·.value)).sum :=
  aggOut_sum hourKeyOf ss (fun k => sampleKeyEq (dayOfKey k) q) (sDayAt q)
    (hmemb_day ss o hoffs hval q)

theorem hourly_day_min (ss : List HealthMetricSample) (o : Option Int)
    (hoffs : ∀ s ∈ ss, s.timestamp.utcoffset = o)
    (hval : ∀ s ∈ ss, s.timestamp.hour < 24) (q : SampleKey) :
    minOver (aggregate_to_hourly ss) (dayMatchesAt q) =
      ((ss.filter (sDayAt q)).map (fun s => (s.value : WithTop ℚ))).foldr min ⊤ :=
  aggOut_min hourKeyOf ss (fun k => sampleKeyEq (dayOfKey k) q) (sDayAt q)
    (hmemb_day ss o hoffs hval q)

theorem hourly_day_max (ss : List HealthMetricSample) (o : Option Int)
    (hoffs : ∀ s ∈ ss, s.timestamp.utcoffset = o)
    (hval : ∀ s ∈ ss, s.timestamp.hour < 24) (q : SampleKey) :
    maxOver (aggregate_to_hourly ss) (dayMatchesAt q) =
      ((ss.filter (sDayAt q)).map (fun s => (s.value : WithBot ℚ))).foldr max ⊥ :=
  aggOut_max hourKeyOf ss (fun k => sampleKeyEq (dayOfKey k) q) (sDayAt q)
    (hmemb_day ss o hoffs hval q)

theorem comb_count (hs : List AggregatedMetric) (q : SampleKey) :
    countOver (aggregate_from_hourly_to_daily hs) (matchesAt q) =
      countOver hs (dayMatchesAt q) :=
  combOut_count hs (fun k => sampleKeyEq k q) (dayMatchesAt q) (hmemb_direct aggDayKey hs q)

theorem comb_sum (hs : List AggregatedMetric) (q : SampleKey) :
    sumOver (aggregate_from_hourly_to_daily hs) (matchesAt q) =
      sumOver hs (dayMatchesAt q) :=
  combOut_sum hs (fun k => sampleKeyEq k q) (dayMatchesAt q) (hmemb_direct aggDayKey hs q)

theorem comb_min (hs : List AggregatedMetric) (q : SampleKey) :
    minOver (aggregate_from_hourly_to_daily hs) (matchesAt q) =
      minOver hs (dayMatchesAt q) :=
  combOut_min hs (fun k => sampleKeyEq k q) (dayMatchesAt q) (hmemb_direct aggDayKey hs q)

theorem comb_max (hs : List AggregatedMetric) (q : SampleKey) :
    maxOver (aggregate_from_hourly_to_daily hs) (matchesAt q) =
      maxOver hs (dayMatchesAt q) :=
  combOut_max hs (fun k => sampleKeyEq k q) (dayMatchesAt q) (hmemb_direct aggDayKey hs q)

theorem mapFin_matches_le_one {α : Type} (key : α → SampleKey) (items : List α)
    (fin : (SampleKey × List α) → AggregatedMetric)
    (hfin : ∀ g, aggKey (fin g) = g.1) (q : SampleKey) :
    (((groupByE sampleKeyEq key items).map fin).filter (matchesAt q)).length ≤ 1 := by
  have h : ((groupByE sampleKeyEq key items).map fin).filter (matchesAt q) =
      ((groupByE sampleKeyEq key items).filter (fun g => sampleKeyEq g.1 q)).map fin :=
    filter_map_fin (fun k => sampleKeyEq k q) fin hfin _
  rw [h, List.length_map]
  exact keysPairwise_filter_le_one sampleKeyEq sampleKeyEq_symm
    (fun a b c h1 h2 => sampleKeyEq_trans h1 h2) q (keysPairwise_groupByE sampleKeyEq key items)

/-- C1 (counterexample): as literally stated — for *every* list of
samples — rollup associativity fails: with mixed UTC offsets the
combinator can merge two samples into one daily bucket that direct
daily aggregation splits, so the bucket `cexQ` holds 1 sample directly
but 0 via the hourly route. -/
theorem C1_counterexample :
    countOver (aggregate_from_hourly_to_daily (aggregate_to_hourly cexSamples)) (matchesAt cexQ) ≠
      countOver (aggregate_to_daily cexSamples) (matchesAt cexQ) := by
  decide

/-- C1 (amended): rollup associativity holds provided all samples carry
one and the same UTC offset (or are all naive) and carry valid hour
fields.  Then for every `(metric_name, day, unit)` bucket key `q`, the
daily rollup obtained by combining the hourly rollups agrees with the
daily rollup computed from the raw samples, exactly, in count, sum,
min and max (and each side has at most one bucket row matching `q`).
Without the shared-offset hypothesis the property fails
(see the counterexample). -/
theorem C1_rollup_associativity (ss : List HealthMetricSample) (o : Option Int)
    (hoffs : ∀ s ∈ ss, s.timestamp.utcoffset = o)
    (hval : ∀ s ∈ ss, s.timestamp.hour < 24) (q : SampleKey) :
    countOver (aggregate_from_hourly_to_daily (aggregate_to_hourly ss)) (matchesAt q) =
        countOver (aggregate_to_daily ss) (matchesAt q) ∧
      sumOver (aggregate_from_hourly_to_daily (aggregate_to_hourly ss)) (matchesAt q) =
        sumOver (aggregate_to_daily ss) (matchesAt q) ∧
      minOver (aggregate_from_hourly_to_daily (aggregate_to_hourly ss)) (matchesAt q) =
        minOver (aggregate_to_daily ss) (matchesAt q) ∧
      maxOver (aggregate_from_hourly_to_daily (aggregate_to_hourly ss)) (matchesAt q) =
        maxOver (aggregate_to_daily ss) (matchesAt q) ∧
      ((aggregate_from_hourly_to_daily (aggregate_to_hourly ss)).filter (matchesAt q)).length ≤ 1 ∧
      ((aggregate_to_daily ss).filter (matchesAt q)).length ≤ 1 := by
  refine ⟨?_, ?_, ?_, ?_, ?_, ?_⟩
  · rw [comb_count, direct_daily_count]
    exact hourly_day_count ss o hoffs hval q
  · rw [comb_sum, direct_daily_sum]
    exact hourly_day_sum ss o hoffs hval q
  · rw [comb_min, direct_daily_min]
    exact hourly_day_min ss o hoffs hval q
  · rw [comb_max, direct_daily_max]
    exact hourly_day_max ss o hoffs hval q
  · exact mapFin_matches_le_one aggDayKey (aggregate_to_hourly ss) combFin aggKey_combFin q
  · exact mapFin_matches_le_one dayKeyOf ss
      (fun g => finalizeAgg g.1 (g.2.map (fun s : HealthMetricSample => s.value)))
      (fun g => aggKey_finalizeAgg g.1 _) q

theorem C1_rollup_associativity_witness :
    (∀ s ∈ wSamples, s.timestamp.utcoffset = some 3600000000) ∧
    (∀ s ∈ wSamples, s.timestamp.hour < 24) ∧
    (countOver (aggregate_from_hourly_to_daily (aggregate_to_hourly wSamples)) (matchesAt wQ) =
        countOver (aggregate_to_daily wSamples) (matchesAt wQ) ∧
      sumOver (aggregate_from_hourly_to_daily (aggregate_to_hourly wSamples)) (matchesAt wQ) =
        sumOver (aggregate_to_daily wSamples) (matchesAt wQ) ∧
      minOver (aggregate_from_hourly_to_daily (aggregate_to_hourly wSamples)) (matchesAt wQ) =
        minOver (aggregate_to_daily wSamples) (matchesAt wQ) ∧
      maxOver (aggregate_from_hourly_to_daily (aggregate_to_hourly wSamples)) (matchesAt wQ) =
        maxOver (aggregate_to_daily wSamples) (matchesAt wQ) ∧
      ((aggregate_from_hourly_to_daily (aggregate_to_hourly wSamples)).filter
          (matchesAt wQ)).length ≤ 1 ∧
      ((aggregate_to_daily wSamples).filter (matchesAt wQ)).length ≤ 1) :=
  ⟨by decide, by decide,
    C1_rollup_associativity wSamples (some 3600000000) (by decide) (by decide) wQ⟩

/-- C9 (counterexample): as literally stated — for *every* sequence of
`add_sample` calls — hourly/daily coherence of the streaming
aggregator fails: with mixed UTC offsets the daily bucket at `cexQ`
holds one sample while the hourly buckets of that day (matched through
their day truncation) hold two. -/
theorem C9_counterexample :
    countOver (get_daily_aggregates (stateOf cexSamples)) (matchesAt cexQ) ≠
      countOver (get_hourly_aggregates (stateOf cexSamples)) (dayMatchesAt cexQ) := by
  decide

/-- C9 (amended): when all samples share one UTC offset (or are all
naive) and have valid hour fields, every daily bucket of the streaming
aggregator agrees with the hourly buckets of the same day: its count
is the sum of their counts, its sum the sum of their sums, its min the
least of their mins, its max the greatest of their maxes. -/
theorem C9_streaming_coherence (ss : List HealthMetricSample) (o : Option Int)
    (hoffs : ∀ s ∈ ss, s.timestamp.utcoffset = o)
    (hval : ∀ s ∈ ss, s.timestamp.hour < 24) (q : SampleKey) :
    countOver (get_daily_aggregates (stateOf ss)) (matchesAt q) =
        countOver (get_hourly_aggregates (stateOf ss)) (dayMatchesAt q) ∧
      sumOver (get_daily_aggregates (stateOf ss)) (matchesAt q) =
        sumOver (get_hourly_aggregates (stateOf ss)) (dayMatchesAt q) ∧
      minOver (get_daily_aggregates (stateOf ss)) (matchesAt q) =
        minOver (get_hourly_aggregates (stateOf ss)) (dayMatchesAt q) ∧
      maxOver (get_daily_aggregates (stateOf ss)) (matchesAt q) =
        maxOver (get_hourly_aggregates (stateOf ss)) (dayMatchesAt q) := by
  rw [streaming_daily_eq, streaming_hourly_eq]
  refine ⟨?_, ?_, ?_, ?_⟩
  · rw [direct_daily_count, hourly_day_count ss o hoffs hval q]
  · rw [direct_daily_sum, hourly_day_sum ss o hoffs hval q]
  · rw [direct_daily_min, hourly_day_min ss o hoffs hval q]
  · rw [direct_daily_max, hourly_day_max ss o hoffs hval q]

theorem C9_streaming_coherence_witness :
    (∀ s ∈ wSamples, s.timestamp.utcoffset = some 3600000000) ∧
    (∀ s ∈ wSamples, s.timestamp.hour < 24) ∧
    (countOver (get_daily_aggregates (stateOf wSamples)) (matchesAt wQ) =
        countOver (get_hourly_aggregates (stateOf wSamples)) (dayMatchesAt wQ) ∧
      sumOver (get_daily_aggregates (stateOf wSamples)) (matchesAt wQ) =
        sumOver (get_hourly_aggregates (stateOf wSamples)) (dayMatchesAt wQ) ∧
      minOver (get_daily_aggregates (stateOf wSamples)) (matchesAt wQ) =
        minOver (get_hourly_aggregates (stateOf wSamples)) (dayMatchesAt wQ) ∧
      maxOver (get_daily_aggregates (stateOf wSamples)) (matchesAt wQ) =
        maxOver (get_hourly_aggregates (stateOf wSamples)) (dayMatchesAt wQ)) :=
  ⟨by decide, by decide,
    C9_streaming_coherence wSamples (some 3600000000) (by decide) (by decide) wQ⟩

theorem direct_hourly_min (ss : List HealthMetricSample) (q : SampleKey) :
    minOver (aggregate_to_hourly ss) (matchesAt q) =
      ((ss.filter (sHourAt q)).map (fun s => (s.value : WithTop ℚ))).foldr min ⊤ :=
  aggOut_min hourKeyOf ss (fun k => sampleKeyEq k q) (sHourAt q) (hmemb_direct hourKeyOf ss q)

theorem direct_hourly_max (ss : List HealthMetricSample) (q : SampleKey) :
    maxOver (aggregate_to_hourly ss) (matchesAt q) =
      ((ss.filter (sHourAt q)).map (fun s => (s.value : WithBot ℚ))).foldr max ⊥ :=
  aggOut_max hourKeyOf ss (fun k => sampleKeyEq k q) (sHourAt q) (hmemb_direct hourKeyOf ss q)

theorem fold_min_le_mem {l : List (WithTop ℚ)} {x : WithTop ℚ} (hx : x ∈ l) :
    l.foldr min ⊤ ≤ x := by
  induction l with
  | nil => cases hx
  | cons y l ih =>
    rcases List.mem_cons.mp hx with h | h
    · rw [h, List.foldr_cons]; exact min_le_left _ _
    · rw [List.foldr_cons]; exact le_trans (min_le_right _ _) (ih h)

theorem fold_max_ge_mem {l : List (WithBot ℚ)} {x : WithBot ℚ} (hx : x ∈ l) :
    x ≤ l.foldr max ⊥ := by
  induction l with
  | nil => cases hx
  | cons y l ih =>
    rcases List.mem_cons.mp hx with h | h
    · rw [h, List.foldr_cons]; exact le_max_left _ _
    · rw [List.foldr_cons]; exact le_trans (ih h) (le_max_right _ _)

theorem eq_singleton_of_mem_len_le_one {α : Type} {l : List α} {a : α}
    (ha : a ∈ l) (hlen : l.length ≤ 1) : l = [a] := by
  rcases l with _ | ⟨x, _ | ⟨y, t⟩⟩
  · cases ha
  · rcases List.mem_singleton.mp ha with h
    rw [h]
  · simp at hlen

theorem foldl_min_le_self (ys : List ℚ) : ∀ a : ℚ, ys.foldl min a ≤ a := by
  induction ys with
  | nil => intro a; exact le_refl a
  | cons z zs ih =>
    intro a
    rw [List.foldl_cons]
    exact le_trans (ih (min a z)) (min_le_left _ _)

theorem foldl_max_ge_self (ys : List ℚ) : ∀ a : ℚ, a ≤ ys.foldl max a := by
  induction ys with
  | nil => intro a; exact le_refl a
  | cons z zs ih =>
    intro a
    rw [List.foldl_cons]
    exact le_trans (le_max_left _ _) (ih (max a z))

theorem listMin_le_listMax (l : List ℚ) (hne : l ≠ []) : listMin l ≤ listMax l := by
  rcases l with _ | ⟨x, xs⟩
  · exact absurd rfl hne
  · exact le_trans (foldl_min_le_self xs x) (foldl_max_ge_self xs x)

theorem pyDtEq_hour_trunc_offset_ne {a b : PyDateTime}
    (hy : a.year = b.year) (hm : a.month = b.month) (hd : a.day = b.day)
    (hh : a.hour = b.hour) (hne : a.utcoffset ≠ b.utcoffset) :
    pyDtEq (_truncate_to_hour a) (_truncate_to_hour b) = false := by
  rcases ha : a.utcoffset with _ | oa <;> rcases hb : b.utcoffset with _ | ob
  · exact absurd (ha.trans hb.symm) hne
  · simp [pyDtEq, _truncate_to_hour, ha, hb]
  · simp [pyDtEq, _truncate_to_hour, ha, hb]
  · have hoo : oa ≠ ob := by
      intro h
      exact hne (by rw [ha, hb, h])
    simp only [pyDtEq, utcoffset_truncate_to_hour, ha, hb, PyDateTime.instantMicros,
      wallMicros_truncate_to_hour, hy, hm, hd, hh]
    simp only [beq_eq_false_iff_ne, ne_eq]
    omega

/-- C8: the hour key zeroes only minute/second/microsecond, the day
key additionally zeroes the hour, and both leave the timestamp's own
UTC offset attached unchanged (no normalization to UTC); consequently
two samples of the same metric and unit with the same wall-clock hour
but different UTC offsets land in different buckets. -/
theorem C8_offset_preserving_truncation :
    (∀ dt : PyDateTime, _truncate_to_hour dt =
      { year := dt.year, month := dt.month, day := dt.day, hour := dt.hour,
        minute := 0, second := 0, microsecond := 0, utcoffset := dt.utcoffset }) ∧
    (∀ dt : PyDateTime, _truncate_to_day dt =
      { year := dt.year, month := dt.month, day := dt.day, hour := 0,
        minute := 0, second := 0, microsecond := 0, utcoffset := dt.utcoffset }) ∧
    (∀ s1 s2 : HealthMetricSample,
      s1.timestamp.year = s2.timestamp.year →
      s1.timestamp.month = s2.timestamp.month →
      s1.timestamp.day = s2.timestamp.day →
      s1.timestamp.hour = s2.timestamp.hour →
      s1.timestamp.utcoffset ≠ s2.timestamp.utcoffset →
      sampleKeyEq (hourKeyOf s1) (hourKeyOf s2) = false) := by
  refine ⟨fun dt => rfl, fun dt => rfl, ?_⟩
  intro s1 s2 hy hm hd hh hne
  simp only [sampleKeyEq, hourKeyOf, pyDtEq_hour_trunc_offset_ne hy hm hd hh hne,
    Bool.and_false, Bool.false_and]

theorem C8_offset_preserving_truncation_witness :
    (wallTwinA.timestamp.year = wallTwinB.timestamp.year ∧
      wallTwinA.timestamp.month = wallTwinB.timestamp.month ∧
      wallTwinA.timestamp.day = wallTwinB.timestamp.day ∧
      wallTwinA.timestamp.hour = wallTwinB.timestamp.hour ∧
      wallTwinA.timestamp.utcoffset ≠ wallTwinB.timestamp.utcoffset) ∧
    sampleKeyEq (hourKeyOf wallTwinA) (hourKeyOf wallTwinB) = false :=
  ⟨⟨by decide, by decide, by decide, by decide, by decide⟩,
    C8_offset_preserving_truncation.2.2 wallTwinA wallTwinB
      (by decide) (by decide) (by decide) (by decide) (by decide)⟩

theorem aggOut_minmax_bound (key : HealthMetricSample → SampleKey)
    (ss : List HealthMetricSample) :
    ∀ a ∈ (groupByE sampleKeyEq key ss).map
        (fun g => finalizeAgg g.1 (g.2.map (fun s : HealthMetricSample => s.value))),
      (∀ s ∈ ss, sampleKeyEq (key s) (aggKey a) = true →
        a.min_value ≤ s.value ∧ s.value ≤ a.max_value) ∧
      a.min_value ≤ a.max_value := by
  intro a ha
  have hle1 := mapFin_matches_le_one key ss
    (fun g => finalizeAgg g.1 (g.2.map (fun s : HealthMetricSample => s.value)))
    (fun g => aggKey_finalizeAgg g.1 _) (aggKey a)
  have hmema : a ∈ ((groupByE sampleKeyEq key ss).map
      (fun g => finalizeAgg g.1 (g.2.map (fun s : HealthMetricSample => s.value)))).filter
        (matchesAt (aggKey a)) :=
    List.mem_filter.mpr ⟨ha, by simp [matchesAt, sampleKeyEq_refl]⟩
  have hfeq := eq_singleton_of_mem_len_le_one hmema hle1
  have hminval : minOver ((groupByE sampleKeyEq key ss).map
      (fun g => finalizeAgg g.1 (g.2.map (fun s : HealthMetricSample => s.value))))
        (matchesAt (aggKey a)) = (a.min_value : WithTop ℚ) := by
    rw [minOver, hfeq]
    simp [min_eq_left le_top]
  have hmaxval : maxOver ((groupByE sampleKeyEq key ss).map
      (fun g => finalizeAgg g.1 (g.2.map (fun s : HealthMetricSample => s.value))))
        (matchesAt (aggKey a)) = (a.max_value : WithBot ℚ) := by
    rw [maxOver, hfeq]
    simp [max_eq_left bot_le]
  have hmin : minOver ((groupByE sampleKeyEq key ss).map
      (fun g => finalizeAgg g.1 (g.2.map (fun s : HealthMetricSample => s.value))))
        (matchesAt (aggKey a)) =
      ((ss.filter (fun s => sampleKeyEq (key s) (aggKey a))).map
        (fun s => (s.value : WithTop ℚ))).foldr min ⊤ :=
    aggOut_min key ss (fun k => sampleKeyEq k (aggKey a))
      (fun s => sampleKeyEq (key s) (aggKey a)) (hmemb_direct key ss (aggKey a))
  have hmax : maxOver ((groupByE sampleKeyEq key ss).map
      (fun g => finalizeAgg g.1 (g.2.map (fun s : HealthMetricSample => s.value))))
        (matchesAt (aggKey a)) =
      ((ss.filter (fun s => sampleKeyEq (key s) (aggKey a))).map
        (fun s => (s.value : WithBot ℚ))).foldr max ⊥ :=
    aggOut_max key ss (fun k => sampleKeyEq k (aggKey a))
      (fun s => sampleKeyEq (key s) (aggKey a)) (hmemb_direct key ss (aggKey a))
  rw [hminval] at hmin
  rw [hmaxval] at hmax
  constructor
  · intro s hs hcond
    have hsf : s ∈ ss.filter (fun s => sampleKeyEq (key s) (aggKey a)) :=
      List.mem_filter.mpr ⟨hs, hcond⟩
    constructor
    · have hmem : (s.value : WithTop ℚ) ∈
          (ss.filter (fun s => sampleKeyEq (key s) (aggKey a))).map
            (fun s => (s.value : WithTop ℚ)) :=
        List.mem_map_of_mem _ hsf
      have := fold_min_le_mem hmem
      rw [← hmin] at this
      exact_mod_cast this
    · have hmem : (s.value : WithBot ℚ) ∈
          (ss.filter (fun s => sampleKeyEq (key s) (aggKey a))).map
            (fun s => (s.value : WithBot ℚ)) :=
        List.mem_map_of_mem _ hsf
      have := fold_max_ge_mem hmem
      rw [← hmax] at this
      exact_mod_cast this
  · rcases List.mem_map.mp ha with ⟨g, hg, hag⟩
    have hwf := groupsWF_groupByE sampleKeyEq key sampleKeyEq_refl sampleKeyEq_symm ss g hg
    have hne : g.2.map (fun s : HealthMetricSample => s.value) ≠ [] := by
      simpa using hwf.2.1
    rw [← hag]
    exact listMin_le_listMax _ hne

/-- C6: for every sequence of `add_sample` calls, every hourly and
every daily bucket of the streaming aggregator bounds every sample
value that contributed to it (`min_value ≤ v ≤ max_value`), and in
particular every finalized `AggregatedMetric` has
`min_value ≤ max_value`. -/
theorem C6_minmax_bound (ss : List HealthMetricSample) :
    (∀ a ∈ get_hourly_aggregates (stateOf ss),
      (∀ s ∈ ss, sampleKeyEq (hourKeyOf s) (aggKey a) = true →
        a.min_value ≤ s.value ∧ s.value ≤ a.max_value) ∧
      a.min_value ≤ a.max_value) ∧
    (∀ a ∈ get_daily_aggregates (stateOf ss),
      (∀ s ∈ ss, sampleKeyEq (dayKeyOf s) (aggKey a) = true →
        a.min_value ≤ s.value ∧ s.value ≤ a.max_value) ∧
      a.min_value ≤ a.max_value) := by
  constructor
  · intro a ha
    rw [streaming_hourly_eq] at ha
    exact aggOut_minmax_bound hourKeyOf ss a ha
  · intro a ha
    rw [streaming_daily_eq] at ha
    exact aggOut_minmax_bound dayKeyOf ss a ha

theorem C6_minmax_bound_witness :
    (wHourlyAgg ∈ get_hourly_aggregates (stateOf wSamples) ∧
      wSamples.get ⟨1, by decide⟩ ∈ wSamples ∧
      sampleKeyEq (hourKeyOf (wSamples.get ⟨1, by decide⟩)) (aggKey wHourlyAgg) = true) ∧
    (wHourlyAgg.min_value ≤ (wSamples.get ⟨1, by decide⟩).value ∧
      (wSamples.get ⟨1, by decide⟩).value ≤ wHourlyAgg.max_value) ∧
    wHourlyAgg.min_value ≤ wHourlyAgg.max_value :=
  ⟨⟨List.get_mem _ _ _, by decide, by decide⟩,
    ((C6_minmax_bound wSamples).1 wHourlyAgg (List.get_mem _ _ _)).1
      (wSamples.get ⟨1, by decide⟩) (by decide) (by decide),
    ((C6_minmax_bound wSamples).1 wHourlyAgg (List.get_mem _ _ _)).2⟩

theorem one_le_sum_counts {l : List AggregatedMetric} (hne : l ≠ [])
    (h1 : ∀ b ∈ l, 1 ≤ b.count) : 1 ≤ (l.map (·.count)).sum := by
  rcases l with _ | ⟨x, xs⟩
  · exact absurd rfl hne
  · calc 1 ≤ x.count := h1 x (by simp)
      _ ≤ x.count + (xs.map (·.count)).sum := Nat.le_add_right _ _
      _ = ((x :: xs).map (·.count)).sum := by simp

theorem aggOut_avg (key : HealthMetricSample → SampleKey) (ss : List HealthMetricSample) :
    ∀ a ∈ (groupByE sampleKeyEq key ss).map
        (fun g => finalizeAgg g.1 (g.2.map (fun s : HealthMetricSample => s.value))),
      1 ≤ a.count ∧ |a.avg_value - a.sum_value / (a.count : ℚ)| < 1 / 1000000000 := by
  intro a ha
  rcases List.mem_map.mp ha with ⟨g, hg, hfg⟩
  have hwf := groupsWF_groupByE sampleKeyEq key sampleKeyEq_refl sampleKeyEq_symm ss g hg
  have hne : g.2.map (fun s : HealthMetricSample => s.value) ≠ [] := by
    simpa using hwf.2.1
  constructor
  · rw [← hfg]
    exact Nat.succ_le_of_lt (List.length_pos.mpr hne)
  · rw [← hfg]
    simp [finalizeAgg, sub_self]

/-- C5: every `AggregatedMetric` produced by the one-shot aggregators,
by the streaming finalizers, or by the hourly-to-daily combinator (fed
rows with positive counts, as the pipeline always does) has
`count ≥ 1` and `avg_value` agreeing with `sum_value / count` to well
within `1e-9` (exactly, in our rational model), so finalization never
divides by zero. -/
theorem C5_avg_consistency (ss : List HealthMetricSample) (hs : List AggregatedMetric)
    (hcnt : ∀ b ∈ hs, 1 ≤ b.count) :
    (∀ a ∈ aggregate_to_hourly ss,
      1 ≤ a.count ∧ |a.avg_value - a.sum_value / (a.count : ℚ)| < 1 / 1000000000) ∧
    (∀ a ∈ aggregate_to_daily ss,
      1 ≤ a.count ∧ |a.avg_value - a.sum_value / (a.count : ℚ)| < 1 / 1000000000) ∧
    (∀ a ∈ get_hourly_aggregates (stateOf ss),
      1 ≤ a.count ∧ |a.avg_value - a.sum_value / (a.count : ℚ)| < 1 / 1000000000) ∧
    (∀ a ∈ get_daily_aggregates (stateOf ss),
      1 ≤ a.count ∧ |a.avg_value - a.sum_value / (a.count : ℚ)| < 1 / 1000000000) ∧
    (∀ a ∈ aggregate_from_hourly_to_daily hs,
      1 ≤ a.count ∧ |a.avg_value - a.sum_value / (a.count : ℚ)| < 1 / 1000000000) := by
  refine ⟨aggOut_avg hourKeyOf ss, aggOut_avg dayKeyOf ss, ?_, ?_, ?_⟩
  · intro a ha
    rw [streaming_hourly_eq] at ha
    exact aggOut_avg hourKeyOf ss a ha
  · intro a ha
    rw [streaming_daily_eq] at ha
    exact aggOut_avg dayKeyOf ss a ha
  · intro a ha
    rcases List.mem_map.mp ha with ⟨g, hg, hfg⟩
    have hwf := groupsWF_groupByE sampleKeyEq aggDayKey sampleKeyEq_refl
      sampleKeyEq_symm hs g hg
    have hsub : ∀ b ∈ g.2, 1 ≤ b.count := fun b hb => hcnt b (hwf.2.2 b hb).1
    have hpos : 1 ≤ (g.2.map (·.count)).sum := one_le_sum_counts hwf.2.1 hsub
    constructor
    · rw [← hfg]
      simpa [combFin] using hpos
    · rw [← hfg]
      simp only [combFin]
      rw [if_pos (Nat.lt_of_lt_of_le Nat.zero_lt_one hpos)]
      simp [sub_self]

theorem C5_avg_consistency_witness :
    (∀ b ∈ aggregate_to_hourly wSamples, 1 ≤ b.count) ∧
    ((aggregate_to_hourly wSamples).get ⟨0, by decide⟩ ∈ aggregate_to_hourly wSamples) ∧
    (1 ≤ ((aggregate_to_hourly wSamples).get ⟨0, by decide⟩).count ∧
      |((aggregate_to_hourly wSamples).get ⟨0, by decide⟩).avg_value -
        ((aggregate_to_hourly wSamples).get ⟨0, by decide⟩).sum_value /
          ((((aggregate_to_hourly wSamples).get ⟨0, by decide⟩).count : ℚ))| <
        1 / 1000000000) :=
  ⟨by decide, List.get_mem _ _ _,
    (C5_avg_consistency wSamples (aggregate_to_hourly wSamples) (by decide)).1 _
      (List.get_mem _ _ _)⟩

/-! ## Batch dispatcher (`src/influx_client.py`) -/

theorem cumLensFrom_append {α : Type} (bs : List (List α)) (b : List α) : ∀ n : Nat,
    cumLensFrom n (bs ++ [b]) =
      cumLensFrom n bs ++ [n + (bs.map List.length).sum + b.length] := by
  induction bs with
  | nil => intro n; simp [cumLensFrom]
  | cons c cs ih =>
    intro n
    simp only [List.cons_append, cumLensFrom, List.map_cons, List.sum_cons, List.append_eq]
    rw [ih (n + c.length)]
    have harith : n + c.length + (cs.map List.length).sum + b.length =
        n + (c.length + (cs.map List.length).sum) + b.length := by
      omega
    rw [harith]

theorem batchStep_inv {α : Type} {done : List α} {st : BatchState α} (p : α)
    (h : BatchInv done st) : BatchInv (done ++ [p]) (batchStep st p) := by
  obtain ⟨hjoin, hcount, hlt, hfull, hcbs⟩ := h
  have hsum : (st.flushes.map List.length).sum + st.points.length = done.length := by
    have h := congrArg List.length hjoin
    simpa [List.length_append, List.length_join] using h
  by_cases hcap : 5000 ≤ (st.points ++ [p]).length
  · have hlen : (st.points ++ [p]).length = 5000 := by
      simp only [List.length_append, List.length_singleton] at hcap ⊢
      omega
    have hplen : st.points.length + 1 = 5000 := by
      simpa using hlen
    refine ⟨?_, ?_, ?_, ?_, ?_⟩ <;>
      simp only [batchStep, hcap, if_true]
    · simp only [List.join_append, List.join_cons, List.join_nil, List.append_nil,
        List.append_assoc]
      rw [← List.append_assoc, hjoin]
    · simp [hcount]
    · simp
    · intro b hb
      rcases List.mem_append.mp hb with h | h
      · exact hfull b h
      · rw [List.mem_singleton.mp h, hlen]
    · rw [hcbs, cumLens, cumLens, cumLensFrom_append, hlen]
      congr 2
      omega
  · have hcap' : ¬ (5000 ≤ (st.points ++ [p]).length) := hcap
    refine ⟨?_, ?_, ?_, ?_, ?_⟩ <;>
      simp only [batchStep, hcap', if_false]
    · rw [← List.append_assoc, hjoin]
    · simp [hcount]
    · simp only [List.length_append, List.length_singleton] at hcap' ⊢
      omega
    · exact hfull
    · exact hcbs

theorem foldl_batch_inv {α : Type} (items : List α) : ∀ (done : List α) (st : BatchState α),
    BatchInv done st → BatchInv (done ++ items) (items.foldl batchStep st) := by
  induction items with
  | nil => intro done st h; simpa using h
  | cons p items ih =>
    intro done st h
    have h1 := batchStep_inv p h
    have h2 := ih (done ++ [p]) _ h1
    simpa using h2

theorem runBatch_spec {α : Type} (items : List α) :
    (runBatch items).flushes.join = items ∧
    (runBatch items).count = items.length ∧
    (runBatch items).cbs = cumLens (runBatch items).flushes ∧
    (∀ b ∈ (runBatch items).flushes.dropLast, b.length = 5000) ∧
    (∀ b ∈ (runBatch items).flushes, b ≠ []) ∧
    (runBatch items).points = [] := by
  have hinit : BatchInv ([] : List α) ⟨0, [], [], []⟩ := by
    refine ⟨rfl, rfl, by simp, ?_, rfl⟩
    intro b hb
    cases hb
  have hinv := foldl_batch_inv items [] _ hinit
  rw [List.nil_append] at hinv
  obtain ⟨hjoin, hcount, hlt, hfull, hcbs⟩ := hinv
  have hsum : ((items.foldl batchStep ⟨0, [], [], []⟩).flushes.map List.length).sum +
      (items.foldl batchStep ⟨0, [], [], []⟩).points.length = items.length := by
    have h := congrArg List.length hjoin
    simpa [List.length_append, List.length_join] using h
  by_cases hempty : (items.foldl batchStep ⟨0, [], [], []⟩).points.isEmpty
  · have hpts : (items.foldl batchStep ⟨0, [], [], []⟩).points = [] :=
      List.isEmpty_iff.mp hempty
    have hrb : runBatch items = items.foldl batchStep ⟨0, [], [], []⟩ := by
      rw [runBatch]
      simp only [hempty, if_true]
    rw [hrb]
    refine ⟨?_, hcount, hcbs, ?_, ?_, hpts⟩
    · conv_rhs => rw [← hjoin]
      rw [hpts, List.append_nil]
    · intro b hb
      exact hfull b ((List.dropLast_sublist _).subset hb)
    · intro b hb
      have hb5 := hfull b hb
      intro hbnil
      rw [hbnil] at hb5
      simp at hb5
  · have hpts : (items.foldl batchStep ⟨0, [], [], []⟩).points ≠ [] := by
      intro h
      rw [← List.isEmpty_iff] at h
      exact absurd h (by simpa using hempty)
    have hrb : runBatch items =
        { items.foldl batchStep ⟨0, [], [], []⟩ with
          points := []
          flushes := (items.foldl batchStep ⟨0, [], [], []⟩).flushes ++
            [(items.foldl batchStep ⟨0, [], [], []⟩).points]
          cbs := (items.foldl batchStep ⟨0, [], [], []⟩).cbs ++
            [(items.foldl batchStep ⟨0, [], [], []⟩).count] } := by
      have hef : (items.foldl batchStep ⟨0, [], [], []⟩).points.isEmpty = false := by
        simpa using hempty
      rw [runBatch]
      simp only [hef, Bool.false_eq_true, if_false]
    rw [hrb]
    refine ⟨?_, hcount, ?_, ?_, ?_, rfl⟩
    · simp only [List.join_append, List.join_cons, List.join_nil, List.append_nil]
      exact hjoin
    · rw [hcbs, cumLens, cumLens, cumLensFrom_append]
      have harith : 0 + ((items.foldl batchStep ⟨0, [], [], []⟩).flushes.map List.length).sum +
          (items.foldl batchStep ⟨0, [], [], []⟩).points.length =
          (items.foldl batchStep ⟨0, [], [], []⟩).count := by
        omega
      rw [harith]
    · intro b hb
      rw [List.dropLast_concat] at hb
      exact hfull b hb
    · intro b hb
      rcases List.mem_append.mp hb with h | h
      · intro hbnil
        have hb5 := hfull b h
        rw [hbnil] at hb5
        simp at hb5
      · rw [List.mem_singleton.mp h]
        exact hpts

/-- C7: both batch writers write every input item exactly once, in
submission order (the concatenation of the flushed batches is exactly
the input's point list), return the number of input items, flush
whenever 5000 points are buffered (every batch but the last holds
exactly 5000 points, and none is empty), flush the remainder at the
end, and invoke the progress callback after each flush with the
cumulative number of items consumed so far. -/
theorem C7_batch_dispatcher (samples : List HealthMetricSample)
    (aggs : List AggregatedMetric) (measurement : String) :
    ((write_metrics_batch samples).flushes.join = samples.map metricPoint ∧
      (write_metrics_batch samples).count = samples.length ∧
      (write_metrics_batch samples).cbs = cumLens (write_metrics_batch samples).flushes ∧
      (∀ b ∈ (write_metrics_batch samples).flushes.dropLast, b.length = 5000) ∧
      (∀ b ∈ (write_metrics_batch samples).flushes, b ≠ [])) ∧
    ((write_aggregated_batch aggs measurement).flushes.join =
        aggs.map (aggPoint measurement) ∧
      (write_aggregated_batch aggs measurement).count = aggs.length ∧
      (write_aggregated_batch aggs measurement).cbs =
        cumLens (write_aggregated_batch aggs measurement).flushes ∧
      (∀ b ∈ (write_aggregated_batch aggs measurement).flushes.dropLast, b.length = 5000) ∧
      (∀ b ∈ (write_aggregated_batch aggs measurement).flushes, b ≠ [])) := by
  obtain ⟨h1, h2, h3, h4, h5, -⟩ := runBatch_spec (samples.map metricPoint)
  obtain ⟨g1, g2, g3, g4, g5, -⟩ := runBatch_spec (aggs.map (aggPoint measurement))
  refine ⟨⟨h1, ?_, h3, h4, h5⟩, ⟨g1, ?_, g3, g4, g5⟩⟩
  · rw [write_metrics_batch, h2, List.length_map]
  · rw [write_aggregated_batch, g2, List.length_map]

/-! ## Timestamp parsing (`src/parser.py` lines 25-42)

`parse_timestamp` first tries
`datetime.strptime(s, "%Y-%m-%d %H:%M:%S %z")`, then falls back to
`datetime.strptime(s[:19], "%Y-%m-%d %H:%M:%S")`, and returns `None`
when both raise (or the input is falsy).  The model below implements
CPython's `_strptime` regex for these two formats, with its ordered
alternations (`%m` = `1[0-2]|0[1-9]|[1-9]` and so on), `\s+` for the
literal spaces, the full `%z` syntax (`±HH[:]MM[[:]SS[.ffffff]]` or
`Z`), full-match semantics, and the `datetime`/`timezone` constructor
range checks that `except ValueError` turns into a fallback.  In this
format every two-digit alternative is followed by a non-digit token
(`-`, `:`, whitespace, a sign, or end of input), so committing to the
first locally matching alternative agrees with regex backtracking.
ASCII whitespace only. -/

theorem strptime_offset_fmt_aware {s : String} {dt : PyDateTime}
    (h : strptime_offset_fmt s = some dt) : dt.utcoffset.isSome := by
  unfold strptime_offset_fmt at h
  rcases hc1 : parseDateTimeCore s.data with _ | p <;> rw [hc1] at h <;> dsimp only at h
  · simp at h
  · obtain ⟨f, cs⟩ := p
    dsimp only at h
    rcases hc2 : skipWs1 cs with _ | cs2 <;> rw [hc2] at h <;> dsimp only at h
    · simp at h
    · rcases hc3 : parseTz cs2 with _ | q <;> rw [hc3] at h <;> dsimp only at h
      · simp at h
      · obtain ⟨off, rest⟩ := q
        dsimp only at h
        split at h
        · obtain rfl := Option.some_inj.mp h
          rfl
        · simp at h

theorem strptime_bare_fmt_naive {s : String} {dt : PyDateTime}
    (h : strptime_bare_fmt s = some dt) : dt.utcoffset = none := by
  unfold strptime_bare_fmt at h
  rcases hc1 : parseDateTimeCore s.data with _ | p <;> rw [hc1] at h <;> dsimp only at h
  · simp at h
  · obtain ⟨f, cs⟩ := p
    dsimp only at h
    split at h
    · obtain rfl := Option.some_inj.mp h
      rfl
    · simp at h

/-- C4: `parse_timestamp` first attempts the offset format
`%Y-%m-%d %H:%M:%S %z` on the whole string and returns its
offset-aware result on success; otherwise it parses the first 19
characters with the bare format `%Y-%m-%d %H:%M:%S`, yielding a naive
result; when both fail, or the input is empty, it returns `None` (and
the containing data point is then dropped by the extractor). -/
theorem C4_timestamp_parsing_order :
    parse_timestamp "" = none ∧
    (∀ (s : String) (dt : PyDateTime), strptime_offset_fmt s = some dt →
      parse_timestamp s = some dt ∧ dt.utcoffset.isSome) ∧
    (∀ s : String, s ≠ "" → strptime_offset_fmt s = none →
      parse_timestamp s = strptime_bare_fmt (s.take 19)) ∧
    (∀ (s : String) (dt : PyDateTime), strptime_bare_fmt s = some dt →
      dt.utcoffset = none) ∧
    (∀ s : String, s ≠ "" → strptime_offset_fmt s = none →
      strptime_bare_fmt (s.take 19) = none → parse_timestamp s = none) := by
  refine ⟨by decide, ?_, ?_, ?_, ?_⟩
  · intro s dt h
    have hne : s ≠ "" := by
      intro he
      rw [he] at h
      have hnone : strptime_offset_fmt "" = none := by decide
      rw [hnone] at h
      exact Option.noConfusion h
    exact ⟨by simp [parse_timestamp, hne, h], strptime_offset_fmt_aware h⟩
  · intro s hne hoff
    simp [parse_timestamp, hne, hoff]
  · intro s dt h
    exact strptime_bare_fmt_naive h
  · intro s hne hoff hbare
    simp [parse_timestamp, hne, hoff, hbare]

theorem C4_timestamp_parsing_order_witness :
    (strptime_offset_fmt "2025-12-08 00:12:43 +0100" =
        some ⟨2025, 12, 8, 0, 12, 43, 0, some 3600000000⟩) ∧
    (parse_timestamp "2025-12-08 00:12:43 +0100" =
        some ⟨2025, 12, 8, 0, 12, 43, 0, some 3600000000⟩ ∧
      (⟨2025, 12, 8, 0, 12, 43, 0, some 3600000000⟩ : PyDateTime).utcoffset.isSome) ∧
    ("not-a-date" ≠ "" ∧ strptime_offset_fmt "not-a-date" = none ∧
      strptime_bare_fmt ("not-a-date".take 19) = none) ∧
    parse_timestamp "not-a-date" = none :=
  ⟨by decide,
    C4_timestamp_parsing_order.2.1 "2025-12-08 00:12:43 +0100"
      ⟨2025, 12, 8, 0, 12, 43, 0, some 3600000000⟩ (by decide),
    ⟨by decide, by decide, by decide⟩,
    C4_timestamp_parsing_order.2.2.2.2 "not-a-date" (by decide) (by decide) (by decide)⟩

/-! ## JSON documents and the extractor (`src/parser.py`)

`json.load` produces dicts, lists, strings, numbers, booleans and
`None`; we model that value space as `Json` (`null` doubles as
Python's `None`, so a missing key and a key mapped to JSON `null` are
both "None" to `dict.get`, exactly as in Python).  Fallible Python
code is modelled in `Except PyErr`: an `error` marks an uncaught
exception aborting the generator. -/

theorem strOrNullOpt_casesD {o : Option Json} (d0 : String) (h : strOrNullOpt o = true) :
    o.getD (.str d0) = .null ∨ ∃ s, o.getD (.str d0) = .str s := by
  rcases o with _ | j
  · exact Or.inr ⟨d0, rfl⟩
  · rcases j with _ | b | q | s | xs | kvs
    · exact Or.inl rfl
    · exact absurd h (by simp [strOrNullOpt])
    · exact absurd h (by simp [strOrNullOpt])
    · exact Or.inr ⟨s, rfl⟩
    · exact absurd h (by simp [strOrNullOpt])
    · exact absurd h (by simp [strOrNullOpt])

theorem strOrNullOpt_cases {o : Option Json} (h : strOrNullOpt o = true) :
    o.getD .null = .null ∨ ∃ s, o.getD .null = .str s := by
  rcases o with _ | j
  · exact Or.inl rfl
  · rcases j with _ | b | q | s | xs | kvs
    · exact Or.inl rfl
    · exact absurd h (by simp [strOrNullOpt])
    · exact absurd h (by simp [strOrNullOpt])
    · exact Or.inr ⟨s, rfl⟩
    · exact absurd h (by simp [strOrNullOpt])
    · exact absurd h (by simp [strOrNullOpt])

theorem numOrNullOpt_cases {o : Option Json} (h : numOrNullOpt o = true) :
    o.getD .null = .null ∨ (∃ q, o.getD .null = .num q) ∨ ∃ b, o.getD .null = .bool b := by
  rcases o with _ | j
  · exact Or.inl rfl
  · rcases j with _ | b | q | s | xs | kvs
    · exact Or.inl rfl
    · exact Or.inr (Or.inr ⟨b, rfl⟩)
    · exact Or.inr (Or.inl ⟨q, rfl⟩)
    · exact absurd h (by simp [numOrNullOpt])
    · exact absurd h (by simp [numOrNullOpt])
    · exact absurd h (by simp [numOrNullOpt])

theorem pyFloat_total {v : Json} (h : (∃ q, v = .num q) ∨ ∃ b, v = .bool b) :
    pyFloat v = .ok (pyFloatTotal v) := by
  rcases h with ⟨q, rfl⟩ | ⟨b, rfl⟩ <;> rfl

set_option maxHeartbeats 1600000 in
theorem parse_point_wf (n u : String) (p : Json) (hwf : wfPoint p = true) :
    parse_point n u p = .ok (pointEval n u p) := by
  rcases p with _ | b | q | s | xs | kvs <;> simp [wfPoint] at hwf
  obtain ⟨⟨⟨hd, hs⟩, hq⟩, hv⟩ := hwf
  have hdc := strOrNullOpt_cases hd
  have hsc := strOrNullOpt_casesD "" hs
  have hqc := numOrNullOpt_cases hq
  have hvc := numOrNullOpt_cases hv
  unfold parse_point pointEval
  simp only [pyGet, pyGetD, bind, Except.bind, pure, Except.pure]
  rcases hdc with hdc | ⟨sd, hdc⟩ <;>
    rcases hsc with hsc | ⟨ss, hsc⟩ <;>
    rcases hqc with hqc | ⟨qv, hqc⟩ | ⟨qb, hqc⟩ <;>
    rcases hvc with hvc | ⟨vv, hvc⟩ | ⟨vb, hvc⟩ <;>
    rw [hdc, hsc, hqc, hvc] <;>
    try rfl
  all_goals simp only [parse_timestamp_py]
  all_goals try (split <;> try simp_all [Json.truthy, Json.isNull, pyFloat, pyFloatTotal])
  all_goals try (split <;> try simp_all [Json.truthy, Json.isNull, pyFloat, pyFloatTotal])
  all_goals try (split <;> try simp_all [Json.truthy, Json.isNull, pyFloat, pyFloatTotal])

theorem foldlM_skip (f : List HealthMetricSample → Json → Except PyErr (List HealthMetricSample))
    (ev : Json → Option HealthMetricSample) (pts : List Json)
    (acc : List HealthMetricSample)
    (hf : ∀ acc p, p ∈ pts → f acc p = .ok (acc ++ (ev p).toList)) :
    List.foldlM f acc pts = Except.ok (acc ++ pts.filterMap ev) := by
  induction pts generalizing acc with
  | nil => simp [pure, Except.pure]
  | cons p ps ih =>
    have hp := hf acc p (List.mem_cons_self p ps)
    have hrest : ∀ a q, q ∈ ps → f a q = .ok (a ++ (ev q).toList) :=
      fun a q hq => hf a q (List.mem_cons_of_mem _ hq)
    rw [List.foldlM_cons, hp]
    show List.foldlM f (acc ++ (ev p).toList) ps = _
    rw [ih _ hrest]
    rcases hev : ev p with _ | s <;> simp [List.filterMap_cons, hev]

theorem foldlM_append (f : List HealthMetricSample → Json → Except PyErr (List HealthMetricSample))
    (ev : Json → List HealthMetricSample) (ms : List Json)
    (acc : List HealthMetricSample)
    (hf : ∀ acc m, m ∈ ms → f acc m = .ok (acc ++ ev m)) :
    List.foldlM f acc ms = Except.ok (acc ++ (ms.map ev).join) := by
  induction ms generalizing acc with
  | nil => simp [pure, Except.pure]
  | cons m ms2 ih =>
    have hm := hf acc m (List.mem_cons_self m ms2)
    have hrest : ∀ a q, q ∈ ms2 → f a q = .ok (a ++ ev q) :=
      fun a q hq => hf a q (List.mem_cons_of_mem _ hq)
    rw [List.foldlM_cons, hm]
    show List.foldlM f (acc ++ ev m) ms2 = _
    rw [ih _ hrest]
    simp

theorem parse_metric_entry_wf (m : Json) (hwf : wfMetricEntry m = true) :
    parse_metric_entry m = .ok (metricEval m) := by
  rcases m with _ | b | q | s | xs | kvs <;> simp [wfMetricEntry] at hwf
  rcases hdl : (Json.lookup kvs "data").getD (Json.arr []) with _ | _ | _ | _ | pts | _ <;>
    rw [hdl] at hwf <;> simp at hwf
  have hpts : ∀ p ∈ pts,
      parse_point (jsonToStrField ((Json.lookup kvs "name").getD (Json.str "")))
        (jsonToStrField ((Json.lookup kvs "units").getD (Json.str ""))) p
        = .ok (pointEval (jsonToStrField ((Json.lookup kvs "name").getD (Json.str "")))
            (jsonToStrField ((Json.lookup kvs "units").getD (Json.str ""))) p) :=
    fun p hp => parse_point_wf _ _ p (hwf p hp)
  unfold parse_metric_entry metricEval metricData
  simp only [pyGetD, pyIter, bind, Except.bind, pure, Except.pure, hdl]
  rw [foldlM_skip _ (pointEval (jsonToStrField ((Json.lookup kvs "name").getD (Json.str "")))
      (jsonToStrField ((Json.lookup kvs "units").getD (Json.str "")))) pts []
      (fun a p hp => by
        rw [hpts p hp]
        rcases hev : pointEval (jsonToStrField ((Json.lookup kvs "name").getD (Json.str "")))
            (jsonToStrField ((Json.lookup kvs "units").getD (Json.str ""))) p with _ | s <;>
          simp [hev])]
  simp

theorem parse_metrics_wf (d : Json) (hwf : wfDoc d = true) :
    parse_metrics d = .ok (((docMetrics d).map metricEval).join) := by
  rcases d with _ | b | q | s | xs | kvs <;> simp [wfDoc] at hwf
  rcases hdl : (Json.lookup kvs "data").getD (Json.obj []) with _ | _ | _ | _ | _ | kvs2 <;>
    rw [hdl] at hwf <;> simp at hwf
  rcases hml : (Json.lookup kvs2 "metrics").getD (Json.arr []) with _ | _ | _ | _ | ms | _ <;>
    rw [hml] at hwf <;> simp at hwf
  have hms : ∀ m ∈ ms, parse_metric_entry m = .ok (metricEval m) :=
    fun m hm => parse_metric_entry_wf m (hwf m hm)
  unfold parse_metrics docMetrics
  simp only [pyGetD, pyIter, bind, Except.bind, pure, Except.pure, hdl, hml]
  rw [foldlM_append _ metricEval ms []
      (fun a m hm => by rw [hms m hm])]
  simp

theorem filterMap_filter_none_length {α β : Type} (f : α → Option β) (l : List α) :
    (l.filterMap f).length + (l.filter (fun a => (f a).isNone)).length = l.length := by
  induction l with
  | nil => rfl
  | cons a l2 ih =>
    rcases hf : f a with _ | b <;>
      simp [List.filterMap_cons, List.filter_cons, hf] <;> omega

theorem metric_count_split (m : Json) :
    (metricEval m).length + metricDropped m = (metricData m).length := by
  rcases m with _ | b | q | s | xs | kvs <;>
    simp only [metricEval, metricDropped, metricData, List.length_nil] <;>
    try rfl
  exact filterMap_filter_none_length _ _

theorem doc_count_split (d : Json) :
    (((docMetrics d).map metricEval).join).length + droppedPoints d = totalPoints d := by
  unfold droppedPoints totalPoints
  rw [List.length_join, List.map_map]
  induction docMetrics d with
  | nil => rfl
  | cons m ms ih =>
    simp only [List.map_cons, List.sum_cons, Function.comp]
    have := metric_count_split m
    omega

/-- C3 counterexample: `parse_metrics` does raise (an uncaught
`ValueError` from `float(value)`) on a data point whose value field is
a non-numeric string, so extraction is not total on malformed data
points. -/
theorem C3_counterexample : parse_metrics cexDoc = .error .valueErr := by rfl

/-- C3 (corrected): as stated the claim fails — `C3_counterexample`
exhibits a malformed data point (string `qty`) on which `parse_metrics`
raises an uncaught `ValueError`.  The recovery property does hold for
the guarded failure modes: on every well-typed document (timestamp
fields strings or null/absent, value fields numeric or null/absent)
extraction never raises, yields exactly the per-point evaluations (a
point whose timestamp fails to parse or whose value is null/absent is
skipped, every other point is yielded), and the yielded and dropped
point counts add up to the document's total point count. -/
theorem C3_malformed_record_recovery (d : Json) (hwf : wfDoc d = true) :
    parse_metrics d = .ok (((docMetrics d).map metricEval).join) ∧
      (((docMetrics d).map metricEval).join).length + droppedPoints d = totalPoints d :=
  ⟨parse_metrics_wf d hwf, doc_count_split d⟩

/-- Witness for C3 on `wDocC3`: the well-formedness hypothesis holds
and the extraction yields one sample while dropping one point. -/
theorem C3_malformed_record_recovery_witness :
    wfDoc wDocC3 = true ∧
      (parse_metrics wDocC3 = .ok (((docMetrics wDocC3).map metricEval).join) ∧
        (((docMetrics wDocC3).map metricEval).join).length + droppedPoints wDocC3
          = totalPoints wDocC3) ∧
      totalPoints wDocC3 = 2 ∧ droppedPoints wDocC3 = 1 :=
  ⟨by rfl, C3_malformed_record_recovery wDocC3 (by rfl), by rfl, by rfl⟩

theorem foldlM_total {α β : Type} (f : β → α → Except PyErr β) (l : List α) (b : β)
    (h : ∀ b2 x, x ∈ l → ∃ b3, f b2 x = .ok b3) :
    ∃ b3, List.foldlM f b l = .ok b3 := by
  induction l generalizing b with
  | nil => exact ⟨b, rfl⟩
  | cons x l2 ih =>
    obtain ⟨b2, hb2⟩ := h b x (List.mem_cons_self x l2)
    rw [List.foldlM_cons, hb2]
    simpa [bind, Except.bind] using ih b2 (fun b3 y hy => h b3 y (List.mem_cons_of_mem _ hy))

theorem foldlM_no_error {α β : Type} (f : β → α → Except PyErr β) (l : List α) (b : β)
    (e : PyErr) (h : ∀ b2 x, x ∈ l → ∃ b3, f b2 x = .ok b3)
    (heq : List.foldlM f b l = .error e) : False := by
  obtain ⟨b3, hb3⟩ := foldlM_total f l b h
  rw [heq] at hb3
  exact Except.noConfusion hb3

theorem stepFoldStep_total (a : ℚ) (x : Json) (hx : wfStepItem x = true) :
    ∃ r, stepFoldStep a x = .ok r := by
  rcases x with _ | b | q | s | xs | kvs <;> simp [wfStepItem] at hx
  unfold stepFoldStep
  simp only [pyGetD, bind, Except.bind, pure, Except.pure]
  rcases hql : Json.lookup kvs "qty" with _ | jq
  · exact ⟨a + 0, rfl⟩
  · rw [hql] at hx
    rcases jq with _ | b2 | q2 | s2 | xs2 | kvs2 <;> simp at hx
    · exact ⟨a + (if b2 then (1 : ℚ) else 0), rfl⟩
    · exact ⟨a + q2, rfl⟩

theorem hrFoldStep_total (acc : List ℚ × List WorkoutSample) (x : Json)
    (hx : wfHrItem x = true) : ∃ r, hrFoldStep acc x = .ok r := by
  rcases x with _ | b | q | s | xs | kvs <;> simp [wfHrItem] at hx
  obtain ⟨hd, ha⟩ := hx
  have hdc := strOrNullOpt_casesD "" hd
  have hac := numOrNullOpt_cases ha
  unfold hrFoldStep
  simp only [pyGet, pyGetD, bind, Except.bind, pure, Except.pure]
  rcases hdc with hdc | ⟨sd, hdc⟩ <;> rcases hac with hac | ⟨qa, hac⟩ | ⟨ba, hac⟩ <;>
    rw [hdc, hac] <;>
    simp only [parse_timestamp_py, Json.truthy, Bool.false_eq_true, if_false] <;>
    exact ⟨_, rfl⟩

theorem wfSteps_cases {o : Option Json} (h : wfSteps o = true) :
    o.getD (Json.arr []) = Json.null ∨
      ∃ xs, o.getD (Json.arr []) = Json.arr xs ∧ ∀ x ∈ xs, wfStepItem x = true := by
  rcases o with _ | j
  · exact Or.inr ⟨[], rfl, by simp⟩
  · rcases j with _ | b | q | s | xs | kvs <;> simp [wfSteps] at h
    · exact Or.inl rfl
    · exact Or.inr ⟨xs, rfl, h⟩

theorem wfHrs_cases {o : Option Json} (h : wfHrs o = true) :
    o.getD (Json.arr []) = Json.null ∨
      ∃ xs, o.getD (Json.arr []) = Json.arr xs ∧ ∀ x ∈ xs, wfHrItem x = true := by
  rcases o with _ | j
  · exact Or.inr ⟨[], rfl, by simp⟩
  · rcases j with _ | b | q | s | xs | kvs <;> simp [wfHrs] at h
    · exact Or.inl rfl
    · exact Or.inr ⟨xs, rfl, h⟩

theorem parse_workout_body_total (kvs : List (String × Json)) (st : PyDateTime)
    (e? : Option PyDateTime)
    (hsc : wfSteps (Json.lookup kvs "stepCount") = true)
    (hhr : wfHrs (Json.lookup kvs "heartRateData") = true) :
    ∃ wk, parse_workout_body (.obj kvs) st e? = .ok wk ∧
      wk.start_time = st ∧ wk.end_time = e?.getD st := by
  have hscc := wfSteps_cases hsc
  have hhrc := wfHrs_cases hhr
  unfold parse_workout_body
  simp only [pyGet, pyGetD, bind, Except.bind, pure, Except.pure]
  rcases hscc with hscc | ⟨xs, hscc, hxs⟩ <;> rw [hscc] <;>
    rcases hhrc with hhrc | ⟨ys, hhrc, hys⟩ <;> rw [hhrc] <;>
    simp only [Json.truthy, pyIter, Bool.false_eq_true, if_false]
  all_goals try (rcases xs with _ | ⟨x0, xs2⟩)
  all_goals try (rcases ys with _ | ⟨y0, ys2⟩)
  all_goals try simp only [List.isEmpty, Bool.not_false, Bool.not_true, if_true,
    Bool.false_eq_true, if_false]
  all_goals try (obtain ⟨tot, htot⟩ := foldlM_total stepFoldStep _ 0 (fun a x hx => stepFoldStep_total a x (hxs x hx)); rw [htot])
  all_goals try (obtain ⟨pr, hpr⟩ := foldlM_total hrFoldStep _ (([] : List ℚ), ([] : List WorkoutSample)) (fun a x hx => hrFoldStep_total a x (hys x hx)); rw [hpr])
  all_goals exact ⟨_, rfl, rfl, rfl⟩

theorem parse_workout_wf (w : Json) (hwf : wfWorkout w = true) :
    (parse_workout w = .ok none ∧ workoutStart w = none) ∨
    ∃ wk, parse_workout w = .ok (some wk) ∧ workoutStart w = some wk.start_time ∧
      wk.end_time = (workoutEnd w).getD wk.start_time := by
  rcases w with _ | b | q | s | xs | kvs <;> simp [wfWorkout] at hwf
  obtain ⟨⟨⟨hst, hen⟩, hsc⟩, hhr⟩ := hwf
  have hstc := strOrNullOpt_casesD "" hst
  have henc := strOrNullOpt_casesD "" hen
  unfold parse_workout workoutStart workoutEnd
  simp only [pyGet, pyGetD, bind, Except.bind, pure, Except.pure]
  rcases hstc with hstc | ⟨ss, hstc⟩ <;> rcases henc with henc | ⟨se, henc⟩ <;>
    rw [hstc, henc] <;>
    simp only [parse_timestamp_py, Json.truthy, Bool.false_eq_true, if_false]
  all_goals try (left; constructor <;> trivial)
  all_goals rcases hts : parse_timestamp ss with _ | st
  all_goals try simp only [hts]
  all_goals try (left; constructor <;> trivial)
  all_goals obtain ⟨wk, hwk, hst2, hend2⟩ := parse_workout_body_total kvs st _ hsc hhr
  all_goals rw [hwk]
  all_goals exact Or.inr ⟨wk, rfl, by rw [hst2], by rw [hend2, hst2]⟩

/-- C10: a workout record is dropped by `parse_workouts` exactly when
its `start` timestamp is missing or unparsable; when `start` parses,
the workout is yielded with `start_time` the parsed start and
`end_time = end_time or start_time`, i.e. the parsed `end` when it
parses and `start_time` itself when `end` is missing or unparsable
(stated for well-typed workout records, on which the record
translation is total). -/
theorem C10_workout_end_fallback (w : Json) (hwf : wfWorkout w = true) :
    (parse_workout w = .ok none ↔ workoutStart w = none) ∧
    ∀ st, workoutStart w = some st →
      ∃ wk, parse_workout w = .ok (some wk) ∧ wk.start_time = st ∧
        wk.end_time = (workoutEnd w).getD st := by
  rcases parse_workout_wf w hwf with ⟨h1, h2⟩ | ⟨wk, h1, h2, h3⟩
  · refine ⟨⟨fun _ => h2, fun _ => h1⟩, ?_⟩
    intro st hsome
    rw [h2] at hsome
    exact Option.noConfusion hsome
  · refine ⟨⟨?_, ?_⟩, ?_⟩
    · intro h
      rw [h1] at h
      exact Option.noConfusion (Except.ok.inj h)
    · intro h
      rw [h2] at h
      exact Option.noConfusion h
    · intro st hsome
      have hst := Option.some.inj (h2.symm.trans hsome)
      exact ⟨wk, h1, hst, by rw [h3, hst]⟩

/-- Witness for C10 on `wWorkoutJ`: well-formedness holds, the start
parses to `wWorkoutSt`, and the record is yielded with
`end_time = start_time` (its `end` is absent, so `workoutEnd` is
`none` and the `getD` fallback fires). -/
theorem C10_workout_end_fallback_witness :
    wfWorkout wWorkoutJ = true ∧ workoutStart wWorkoutJ = some wWorkoutSt ∧
      workoutEnd wWorkoutJ = none ∧
      ∃ wk, parse_workout wWorkoutJ = .ok (some wk) ∧ wk.start_time = wWorkoutSt ∧
        wk.end_time = (workoutEnd wWorkoutJ).getD wWorkoutSt :=
  ⟨by rfl, by rfl, by rfl,
    (C10_workout_end_fallback wWorkoutJ (by rfl)).2 wWorkoutSt (by rfl)⟩

theorem filter_not_length {α : Type} (p : α → Bool) (l : List α) :
    (l.filter p).length + (l.filter (fun a => !(p a))).length = l.length := by
  induction l with
  | nil => rfl
  | cons a l2 ih =>
    rcases hp : p a <;> simp [List.filter_cons, hp] <;> omega

/-- C2: in an incremental run whose store holds a raw watermark `W`,
the controller ingests exactly the samples with timestamp strictly
greater than `W` (appended to the raw store in order), counts the
at-or-before-`W` samples as skipped (written + skipped = total), and
the surviving stored aggregates are exactly the hourly rows strictly
before `replace(minute=0, second=0, microsecond=0)` of `W` — the
aggregator's hour truncation — and the daily rows strictly before its
day truncation, with the freshly computed aggregates of the kept
samples appended after the deletion. -/
theorem C2_incremental_reconciliation (st : Store) (samples : List HealthMetricSample)
    (W : PyDateTime) (hW : get_last_import_times_raw st = some W) :
    ∃ out written skipped, run_incremental st samples = (out, written, skipped) ∧
      out.raw = st.raw ++ samples.filter (fun s => pyDtLt W s.timestamp) ∧
      written = (samples.filter (fun s => pyDtLt W s.timestamp)).length ∧
      skipped = (samples.filter (fun s => !(pyDtLt W s.timestamp))).length ∧
      written + skipped = samples.length ∧
      out.hourly = st.hourly.filter (fun r => pyDtLt r.timestamp (_truncate_to_hour W))
        ++ get_hourly_aggregates (stateOf (samples.filter (fun s => pyDtLt W s.timestamp))) ∧
      out.daily = st.daily.filter (fun r => pyDtLt r.timestamp (_truncate_to_day W))
        ++ get_daily_aggregates (stateOf (samples.filter (fun s => pyDtLt W s.timestamp))) := by
  unfold run_incremental
  rw [hW]
  have hsplit := filter_not_length (fun s => pyDtLt W s.timestamp) samples
  have hle : (samples.filter (fun s => pyDtLt W s.timestamp)).length ≤ samples.length :=
    List.length_filter_le _ _
  refine ⟨_, _, _, rfl, rfl, rfl, ?_, ?_, rfl, rfl⟩
  · show samples.length - (since_filter W samples).length = _
    unfold since_filter
    omega
  · show (since_filter W samples).length + (samples.length - (since_filter W samples).length)
      = samples.length
    unfold since_filter
    omega

/-- Witness for C2 on the Scenario-B store: the watermark hypothesis
holds and the reconciliation equations follow. -/
theorem C2_incremental_reconciliation_witness :
    get_last_import_times_raw wStoreC2 = some wWmC2 ∧
      ∃ out written skipped, run_incremental wStoreC2 wSamplesC2 = (out, written, skipped) ∧
        out.raw = wStoreC2.raw ++ wSamplesC2.filter (fun s => pyDtLt wWmC2 s.timestamp) ∧
        written = (wSamplesC2.filter (fun s => pyDtLt wWmC2 s.timestamp)).length ∧
        skipped = (wSamplesC2.filter (fun s => !(pyDtLt wWmC2 s.timestamp))).length ∧
        written + skipped = wSamplesC2.length ∧
        out.hourly = wStoreC2.hourly.filter
            (fun r => pyDtLt r.timestamp (_truncate_to_hour wWmC2))
          ++ get_hourly_aggregates
              (stateOf (wSamplesC2.filter (fun s => pyDtLt wWmC2 s.timestamp))) ∧
        out.daily = wStoreC2.daily.filter
            (fun r => pyDtLt r.timestamp (_truncate_to_day wWmC2))
          ++ get_daily_aggregates
              (stateOf (wSamplesC2.filter (fun s => pyDtLt wWmC2 s.timestamp))) :=
  ⟨by rfl, C2_incremental_reconciliation wStoreC2 wSamplesC2 wWmC2 (by rfl)⟩
